import Mathlib

/-!
# Verification of the calibration / slope-calculation core

Shallow embedding of the numerical core of the repository:
* `CalibrationCore.calibrate` and friends (src/calibration/calibration_core.py),
  modelled over the real numbers (the Python code computes with IEEE floats via
  numpy; the embedding uses exact real arithmetic, so float-tolerance phrases
  of the specification become exact equalities here).
* `SlopeCalculator` (src/data_processing/slope_calculator.py), modelled over
  the rationals so that every operation is executable and decidable.
-/

namespace CalibrationCore

/-- `np.clip(x, lo, hi)`: numpy computes `min (max x lo) hi`. -/
noncomputable def clip (x lo hi : ℝ) : ℝ := min (max x lo) hi

/-- Line 37 of calibration_core.py: `pressure = np.maximum(pressure, 1e-10)`. -/
noncomputable def clampedPressure (pressure : ℝ) : ℝ := max pressure 1e-10

/-- Line 39: `ratio = self.p_ref / pressure` (with the clamped pressure). -/
noncomputable def pressureRat (pRef pressure : ℝ) : ℝ := pRef / clampedPressure pressure

/-- Lines 40-43: `exponent = f1*np.log(ratio) + f2`, clipped to `[-10, 10]`. -/
noncomputable def exponentOf (f1 f2 pRef pressure : ℝ) : ℝ :=
  clip (f1 * Real.log (pressureRat pRef pressure) + f2) (-10) 10

/-- The factor `ratio ** exponent` of line 45 (`Real.rpow`; for the positive
bases arising in the theorems below this agrees with numpy's float power). -/
noncomputable def powerFactor (f1 f2 pRef pressure : ℝ) : ℝ :=
  pressureRat pRef pressure ^ exponentOf f1 f2 pRef pressure

/-- `CalibrationCore.calibrate` (lines 31-45): `ppm * ratio ** exponent`. -/
noncomputable def calibrate (f1 f2 pRef ppm pressure : ℝ) : ℝ :=
  ppm * powerFactor f1 f2 pRef pressure

/-- A tabular dataset: named columns of optional rational cells. `none` models
a missing or non-numeric value (NaN after `pd.to_numeric(..., errors='coerce')`);
pandas keeps all columns of a frame at equal length, lists of unequal length
simply truncate on `zip` and never arise from well-formed frames. -/
def CalTable := List (String × List (Option ℚ))

/-- `col in df.columns` / `df[col]`: first column of the given name. -/
def lookupCol (tbl : CalTable) (c : String) : Option (List (Option ℚ)) :=
  List.lookup c tbl

/-- One row passes the `valid_mask` of lines 57-59 iff the moisture cell is
numeric, the pressure cell is numeric and the pressure is strictly positive. -/
def pairOf (mp : Option ℚ × Option ℚ) : Option (ℚ × ℚ) :=
  match mp with
  | (some mv, some pv) => if 0 < pv then some (mv, pv) else none
  | _ => none

/-- The `(moisture, pressure)` pairs of the rows surviving `valid_mask`. -/
def validPairsCal (ms ps : List (Option ℚ)) : List (ℚ × ℚ) :=
  (ms.zip ps).filterMap pairOf

/-- Boolean row mask (lines 57-59), used to slice every column of the frame. -/
def rowMask (ms ps : List (Option ℚ)) : List Bool :=
  (ms.zip ps).map (fun mp => (pairOf mp).isSome)

/-- `xs[mask]`: keep the entries of `xs` at the `true` positions of `mask`. -/
def maskFilter {α : Type} (mask : List Bool) (xs : List α) : List α :=
  ((xs.zip mask).filter (fun xb => xb.2)).map (fun xb => xb.1)

/-- `plot_df[valid_mask]`: every column sliced by the row mask. -/
def filterTable (tbl : CalTable) (mask : List Bool) : CalTable :=
  tbl.map (fun cv => (cv.1, maskFilter mask cv.2))

/-- The valid pairs of a table under a given pair of column names;
`[]` when either column is absent. -/
def tableValidPairs (tbl : CalTable) (mCol pCol : String) : List (ℚ × ℚ) :=
  match lookupCol tbl mCol, lookupCol tbl pCol with
  | some ms, some ps => validPairsCal ms ps
  | _, _ => []

/-- The calibrated-channel record of lines 74-82. -/
structure CalRecord where
  column : String
  calibColumn : String
  times : List (Option ℚ)
  values : List ℝ
  validDf : CalTable
  originalValues : List ℚ
  pressureValues : List ℚ

/-- `CalibrationCore.calibrate_single_pair` (lines 47-82).  Returns `none`
when either column is absent or no row survives the validity mask; otherwise
builds the record from the filtered rows (`times` falls back to the surviving
row indices when no `relative_time` column exists).  The number of surviving
rows equals the number of valid pairs, so `valid_df.empty` is rendered as
emptiness of the valid-pair list. -/
noncomputable def calibrate_single_pair (f1 f2 pRef : ℝ) (tbl : CalTable)
    (mCol pCol : String) : Option CalRecord :=
  match lookupCol tbl mCol, lookupCol tbl pCol with
  | some ms, some ps =>
    let mask := rowMask ms ps
    let vdf := filterTable tbl mask
    let prs := validPairsCal ms ps
    if prs.isEmpty then none
    else some
      { column := mCol
        calibColumn := mCol ++ "_calib"
        times :=
          match lookupCol vdf "relative_time" with
          | some ts => ts
          | none => maskFilter mask ((List.range ms.length).map (fun i => some (i:ℚ)))
        values := prs.map (fun mp => calibrate f1 f2 pRef (mp.1:ℝ) (mp.2:ℝ))
        validDf := vdf
        originalValues := prs.map (fun mp => mp.1)
        pressureValues := prs.map (fun mp => mp.2) }
  | _, _ => none

/-- `CalibrationCore.batch_calibrate` (lines 84-94): fold over the pairs,
inserting the record under its `calib_column` key when the single-pair
calibration is not `None` (a later duplicate `calib_column` key appears as a
further list entry rather than overwriting, a corner no claim touches). -/
noncomputable def batch_calibrate (f1 f2 pRef : ℝ) (tbl : CalTable) :
    List (String × String) → List (String × CalRecord)
  | [] => []
  | (m, p) :: rest =>
    match calibrate_single_pair f1 f2 pRef tbl m p with
    | some r => (r.calibColumn, r) :: batch_calibrate f1 f2 pRef tbl rest
    | none => batch_calibrate f1 f2 pRef tbl rest

/-- Python's `round` to the nearest integer, ties to even (banker's rounding),
on exact rational inputs. -/
def roundHalfEven (q : ℚ) : ℤ :=
  if q - ⌊q⌋ < 1/2 then ⌊q⌋
  else if 1/2 < q - ⌊q⌋ then ⌊q⌋ + 1
  else if Even ⌊q⌋ then ⌊q⌋ else ⌊q⌋ + 1

/-- `round(t, 3)` of line 134: round to 3 decimal places. -/
def round3 (t : ℚ) : ℚ := (roundHalfEven (t * 1000) : ℚ) / 1000

/-- Append one value to the bucket of its key, preserving first-insertion
order of keys (Python dict semantics, lines 134-137). -/
def addToBucket (bs : List (ℚ × List ℚ)) (k : ℚ) (v : ℚ) : List (ℚ × List ℚ) :=
  match bs with
  | [] => [(k, [v])]
  | (k', vs) :: rest =>
    if k' = k then (k', vs ++ [v]) :: rest else (k', vs) :: addToBucket rest k v

/-- `all_values_by_time` (lines 127-137): every `(time, value)` pair of every
record, bucketed by its time rounded to 3 decimals.  A record is the zipped
`times`/`values` arrays of one calibrated channel. -/
def buckets (records : List (List (ℚ × ℚ))) : List (ℚ × List ℚ) :=
  records.foldl
    (fun bs rec => rec.foldl (fun bs' tv => addToBucket bs' (round3 tv.1) tv.2) bs)
    []

/-- Arithmetic mean (`np.mean`). -/
def mean (xs : List ℚ) : ℚ := xs.sum / xs.length

/-- Population variance (`np.var`, `ddof = 0`). -/
def popVar (xs : List ℚ) : ℚ := ((xs.map (fun v => (v - mean xs)^2)).sum) / xs.length

/-- Lines 139-144: the variances of the buckets holding more than one value. -/
def bucketVariances (records : List (List (ℚ × ℚ))) : List ℚ :=
  (buckets records).filterMap
    (fun kv => if 1 < kv.2.length then some (popVar kv.2) else none)

/-- `np.max` of a non-empty list (the only way line 150 uses it). -/
def listMax (xs : List ℚ) : ℚ := xs.foldl max xs.headI

/-- The validation dictionary: `avg_variance`/`max_variance`/`num_time_points`
keys are present only on the good/acceptable/poor branches (the code's early
returns carry only `status` and `message`; the `message` strings, pure
formatted diagnostics, are not modelled). -/
structure ValidationResult where
  status : String
  avgVariance : Option ℚ
  maxVariance : Option ℚ
  numTimePoints : Option ℕ
deriving DecidableEq

/-- `CalibrationCore.validate_calibration` (lines 121-169). -/
def validate_calibration (records : List (List (ℚ × ℚ))) (tolerance : ℚ) :
    ValidationResult :=
  if records.length < 2 then
    { status := "insufficient_data", avgVariance := none, maxVariance := none,
      numTimePoints := none }
  else if bucketVariances records = [] then
    { status := "no_overlap", avgVariance := none, maxVariance := none,
      numTimePoints := none }
  else
    { status :=
        if listMax (bucketVariances records) < tolerance then "good"
        else if mean (bucketVariances records) < tolerance then "acceptable"
        else "poor",
      avgVariance := some (mean (bucketVariances records)),
      maxVariance := some (listMax (bucketVariances records)),
      numTimePoints := some (buckets records).length }

/-- How many records contribute at least one pair to the time bucket `k` —
the "contributing records" notion used by the claim's `no_overlap` wording. -/
def recordsTouching (records : List (List (ℚ × ℚ))) (k : ℚ) : ℕ :=
  (records.filter (fun rec => rec.any (fun tv => round3 tv.1 == k))).length

end CalibrationCore

namespace SlopeCalculator

/-- A sample table as the slope engine sees it: the numeric `relative_time`
axis in hours (`none` = NaN; the code reuses this column when present, which
is the pipeline's path — parsing wall-clock strings is external I/O) and the
named numeric data columns. -/
structure Table where
  times : List (Option ℚ)
  cols : List (String × List (Option ℚ))

/-- `col in data.columns` / `data[col]`. -/
def getCol (t : Table) (c : String) : Option (List (Option ℚ)) :=
  List.lookup c t.cols

/-- The non-NaN entries of the time axis. -/
def timeVals (t : Table) : List ℚ := t.times.filterMap id

/-- `time_data.min()` — pandas skips NaN and returns NaN iff nothing is left. -/
def minTime (t : Table) : Option ℚ :=
  match timeVals t with
  | [] => none
  | x :: xs => some (xs.foldl min x)

/-- `time_data.max()`. -/
def maxTime (t : Table) : Option ℚ :=
  match timeVals t with
  | [] => none
  | x :: xs => some (xs.foldl max x)

/-- The rows where both the time axis and the column are non-NaN
(`valid_mask = pd.notna(data[col]) & pd.notna(time_data)` zipped with the
values); `[]` when the column is absent. -/
def colValid (t : Table) (c : String) : List (ℚ × ℚ) :=
  match getCol t c with
  | none => []
  | some cells =>
    (t.times.zip cells).filterMap
      (fun p =>
        match p with
        | (some tv, some v) => some (tv, v)
        | _ => none)

/-- `np.arange(start, stop, step)` for a positive step: the
`⌈(stop - start)/step⌉` values `start + k·step`, all `< stop`.  The code only
ever calls it with a positive step; a non-positive step gives `[]` here. -/
def npArange (start stop step : ℚ) : List ℚ :=
  if 0 < step then
    (List.range (Int.toNat ⌈(stop - start) / step⌉)).map
      (fun (k : ℕ) => start + (k : ℚ) * step)
  else []

/-- `scipy.stats.linregress` over exact rationals, returning
`(slope, intercept, r²)`.  scipy computes `slope = ssxym/ssxm`; when every
`x` is equal (`ssxm = 0`) that is a float `0/0 → nan`, which every caller
rejects through its `np.isfinite(slope)` check — modelled as `none`.  When
`ssxm·ssym = 0` (with `ssxm ≠ 0`, i.e. constant `y`) scipy sets `r = 0`;
otherwise `r = ssxym/√(ssxm·ssym)`, so `r² = ssxym²/(ssxm·ssym)` exactly
(scipy's clip of `r` to `[-1, 1]` never fires in exact arithmetic, by
Cauchy-Schwarz).  The slope, intercept and r² of a `some` result are always
finite rationals, matching the callers' finiteness checks. -/
def linregress (pts : List (ℚ × ℚ)) : Option (ℚ × ℚ × ℚ) :=
  let n : ℚ := pts.length
  let xm := (pts.map (fun p => p.1)).sum / n
  let ym := (pts.map (fun p => p.2)).sum / n
  let ssxm := (pts.map (fun p => (p.1 - xm) ^ 2)).sum
  let ssym := (pts.map (fun p => (p.2 - ym) ^ 2)).sum
  let ssxym := (pts.map (fun p => (p.1 - xm) * (p.2 - ym))).sum
  if ssxm = 0 then none
  else some (ssxym / ssxm, ym - ssxym / ssxm * xm,
    if ssxm * ssym = 0 then 0 else ssxym ^ 2 / (ssxm * ssym))

/-- One slope record (the per-column result dictionary).  The parameter-echo
keys (`interval_minutes`, window sizes, `used_points`, …) and the
`noise_reduction_percent` float diagnostic (an irrational standard-deviation
quotient used only for a debug print) are not modelled; every key a claim
mentions is present. -/
structure SlopeRecord where
  times : List ℚ
  slopes : List ℚ
  rSquared : Option (List ℚ)
  nPoints : Option (List ℕ)
  originalColumn : String
  units : String
  calculationMethod : String
  originalSlopes : Option (List ℚ)
  smoothed : Bool
  smoothMethod : Option String
  smoothWindow : Option ℕ
  smoothOrder : Option ℕ
deriving DecidableEq

/-- A freshly produced (unsmoothed) record. -/
def baseRecord (ts ss : List ℚ) (r2s : Option (List ℚ)) (nps : Option (List ℕ))
    (c meth : String) : SlopeRecord :=
  { times := ts, slopes := ss, rSquared := r2s, nPoints := nps,
    originalColumn := c, units := "ppm/hour", calculationMethod := meth,
    originalSlopes := none, smoothed := false, smoothMethod := none,
    smoothWindow := none, smoothOrder := none }

/-- The valid points whose time lies in `[lb, rb]` (window selection; the
NaN re-filter of the code is subsumed because NaN comparisons are already
false in the mask). -/
def windowPts (vp : List (ℚ × ℚ)) (lb rb : ℚ) : List (ℚ × ℚ) :=
  vp.filter (fun p => decide (lb ≤ p.1) && decide (p.1 ≤ rb))

/-- The accepted evaluations of a regression loop: for each grid timestamp
`t`, the per-timestamp computation `P t` (slope, r², point count) paired
with its label `t`; skipped timestamps contribute nothing. -/
def regAccepted (grid : List ℚ) (P : ℚ → Option (ℚ × ℚ × ℕ)) :
    List (ℚ × (ℚ × ℚ × ℕ)) :=
  grid.filterMap (fun t => (P t).map (fun q => (t, q)))

/-- The per-column result dictionary of a regression method: parallel
`times`/`slopes`/`r_squared`/`n_points` arrays from the accepted list. -/
def regRecord (acc : List (ℚ × (ℚ × ℚ × ℕ))) (c meth : String) : SlopeRecord :=
  baseRecord (acc.map (fun a => a.1)) (acc.map (fun a => a.2.1))
    (some (acc.map (fun a => a.2.2.1))) (some (acc.map (fun a => a.2.2.2)))
    c meth

/-- `max(10, int(len(calc_times) * 0.05))` (line 309). -/
def minReqInterval (numCalc : ℕ) : ℕ :=
  max 10 (Int.toNat ⌊(numCalc : ℚ) * (5 / 100)⌋)

/-- One evaluation timestamp of the interval-regression loop (lines 293-355):
two-sided window, fallback to the left-only window when the two-sided one is
short, skip when both are; accept the fit iff slope, intercept and r are
finite and `|slope| < 1000`. -/
def irAt (vp : List (ℚ × ℚ)) (numCalc : ℕ) (leftH rightH t : ℚ) :
    Option (ℚ × ℚ × ℕ) :=
  let minReq := minReqInterval numCalc
  let w := windowPts vp (t - leftH) (t + rightH)
  let w' :=
    if w.length < minReq then
      (let lw := windowPts vp (t - leftH) t
       if minReq ≤ lw.length then lw else [])
    else w
  if w'.length < minReq then none
  else
    match linregress w' with
    | none => none
    | some (s, _, r2) => if |s| < 1000 then some (s, r2, w'.length) else none

/-- `_calculate_slopes_interval_regression`, one column (lines 274-374). -/
def intervalRegressionCol (tbl : Table) (c : String)
    (calcSecs leftMin rightMin mn mx : ℚ) : Option SlopeRecord :=
  match getCol tbl c with
  | none => none
  | some _ =>
    if (colValid tbl c).length < 3 then none
    else
      if (regAccepted (npArange mn (mx + 1/1000) (calcSecs / 3600))
          (irAt (colValid tbl c) (npArange mn (mx + 1/1000) (calcSecs / 3600)).length
            (leftMin / 60) (rightMin / 60))).isEmpty then none
      else some (regRecord
        (regAccepted (npArange mn (mx + 1/1000) (calcSecs / 3600))
          (irAt (colValid tbl c) (npArange mn (mx + 1/1000) (calcSecs / 3600)).length
            (leftMin / 60) (rightMin / 60))) c "interval_regression")

/-- `_calculate_slopes_interval_regression` (lines 211-377): `None` window
parameters default to 15 minutes; an all-NaN time axis yields `{}`. -/
def intervalRegression (tbl : Table) (cs : List String) (calcSecs : ℚ)
    (leftMin? rightMin? : Option ℚ) : List (String × SlopeRecord) :=
  if tbl.times.isEmpty || cs.isEmpty then []
  else
    match minTime tbl, maxTime tbl with
    | some mn, some mx =>
      cs.filterMap (fun c =>
        (intervalRegressionCol tbl c calcSecs (leftMin?.getD 15)
          (rightMin?.getD 15) mn mx).map (fun r => (c, r)))
    | _, _ => []

/-- One evaluation timestamp of the moving-regression loop (lines 164-190):
symmetric window, minimum 3 points, accept iff slope and r are finite (no
`|slope| < 1000` bound and no intercept check in this legacy method). -/
def movingAt (vp : List (ℚ × ℚ)) (half t : ℚ) : Option (ℚ × ℚ × ℕ) :=
  let w := windowPts vp (t - half) (t + half)
  if w.length < 3 then none
  else (linregress w).map (fun r => (r.1, r.2.2, w.length))

/-- `_calculate_slopes_moving_regression`, one column (lines 146-207). -/
def movingRegressionCol (tbl : Table) (c : String)
    (intervalMin windowMin mn mx : ℚ) : Option SlopeRecord :=
  match getCol tbl c with
  | none => none
  | some _ =>
    if (colValid tbl c).length < 3 then none
    else
      if (regAccepted
          (npArange (mn + windowMin / 60 / 2) (mx - windowMin / 60 / 2 + 1/1000)
            (intervalMin / 60))
          (movingAt (colValid tbl c) (windowMin / 60 / 2))).isEmpty then none
      else some (regRecord
        (regAccepted
          (npArange (mn + windowMin / 60 / 2) (mx - windowMin / 60 / 2 + 1/1000)
            (intervalMin / 60))
          (movingAt (colValid tbl c) (windowMin / 60 / 2))) c "moving_regression")

/-- `_calculate_slopes_moving_regression` (lines 85-209): all-NaN axis or a
window not fitting the observed range (`start_time >= end_time`) yields `{}`. -/
def movingRegression (tbl : Table) (cs : List String)
    (intervalMin windowMin : ℚ) : List (String × SlopeRecord) :=
  match minTime tbl, maxTime tbl with
  | some mn, some mx =>
    if mx - windowMin / 60 / 2 ≤ mn + windowMin / 60 / 2 then []
    else
      cs.filterMap (fun c =>
        (movingRegressionCol tbl c intervalMin windowMin mn mx).map
          (fun r => (c, r)))
  | _, _ => []

/-- `max(5, int(total_points * 0.01))` (line 468). -/
def minReqCont (total : ℕ) : ℕ :=
  max 5 (Int.toNat ⌊(total : ℚ) * (1 / 100)⌋)

/-- One evaluation timestamp of the continuous-regression loop
(lines 452-488): same acceptance checks as interval regression. -/
def contAt (vp : List (ℚ × ℚ)) (total : ℕ) (leftH rightH t : ℚ) :
    Option (ℚ × ℚ × ℕ) :=
  let w := windowPts vp (t - leftH) (t + rightH)
  if w.length < minReqCont total then none
  else
    match linregress w with
    | none => none
    | some (s, _, r2) => if |s| < 1000 then some (s, r2, w.length) else none

/-- `_calculate_slopes_continuous_regression`, one column (lines 430-506):
every valid sample timestamp of the column is an evaluation timestamp. -/
def continuousRegressionCol (tbl : Table) (c : String)
    (leftMin rightMin : ℚ) : Option SlopeRecord :=
  match getCol tbl c with
  | none => none
  | some _ =>
    if (colValid tbl c).length < 3 then none
    else
      if (regAccepted ((colValid tbl c).map (fun p => p.1))
          (contAt (colValid tbl c) (colValid tbl c).length
            (leftMin / 60) (rightMin / 60))).isEmpty then none
      else some (regRecord
        (regAccepted ((colValid tbl c).map (fun p => p.1))
          (contAt (colValid tbl c) (colValid tbl c).length
            (leftMin / 60) (rightMin / 60))) c "continuous_regression")

/-- `_calculate_slopes_continuous_regression` (lines 379-509). -/
def continuousRegression (tbl : Table) (cs : List String)
    (leftMin rightMin : ℚ) : List (String × SlopeRecord) :=
  match minTime tbl, maxTime tbl with
  | some _, some _ =>
    cs.filterMap (fun c =>
      (continuousRegressionCol tbl c leftMin rightMin).map (fun r => (c, r)))
  | _, _ => []

/-- Piecewise-linear interpolation with end-segment extrapolation over knots
sorted by time (`scipy.interpolate.interp1d(kind='linear',
fill_value='extrapolate')`): pick the first segment whose right knot is
`≥ x`, or the last segment; `none` on fewer than two knots, and on a
zero-width segment (where scipy's `diff(y)/diff(x)` division by zero poisons
the value with NaN/inf). -/
def interpSegs (pts : List (ℚ × ℚ)) (x : ℚ) : Option ℚ :=
  match pts with
  | (x0, y0) :: (x1, y1) :: rest =>
    if x ≤ x1 ∨ rest = [] then
      if x1 = x0 then none else some (y0 + (y1 - y0) / (x1 - x0) * (x - x0))
    else interpSegs ((x1, y1) :: rest) x
  | _ => none

/-- `interp1d` sorts its knots by x before interpolating. -/
def sortByTime (vp : List (ℚ × ℚ)) : List (ℚ × ℚ) :=
  List.insertionSort (fun p q => p.1 ≤ q.1) vp

/-- Consecutive pairs `(tᵢ, tᵢ₊₁)` of a list (`zip` with its own tail) — the
pairing of the `for i` loop of lines 576-583. -/
def consecPairs {α : Type} (l : List α) : List (α × α) := l.zip l.tail

/-- The inner loop of `_calculate_slopes_interval_based` (lines 576-617):
sample the interpolant `pts` at consecutive cadence points `(tᵢ, tᵢ₊₁)`
clamped into the observed range (`p1 = max(tᵢ, mn)`, `p2 = min(tᵢ₊₁, mx)`),
skip degenerate or NaN-valued intervals, and label the forward difference
`(v₂ - v₁)/(p₂ - p₁)` at the grid point `tᵢ`. -/
def ibAccepted (pts : List (ℚ × ℚ)) (calcTimes : List ℚ) (mn mx : ℚ) :
    List (ℚ × ℚ) :=
  (consecPairs calcTimes).filterMap
    (fun pr =>
      if min pr.2 mx ≤ max pr.1 mn then none
      else
        match interpSegs pts (max pr.1 mn), interpSegs pts (min pr.2 mx) with
        | some v1, some v2 =>
          some (pr.1, (v2 - v1) / (min pr.2 mx - max pr.1 mn))
        | _, _ => none)

/-- `_calculate_slopes_interval_based`, one column (lines 551-629). -/
def intervalBasedCol (tbl : Table) (c : String)
    (intervalMin mn mx : ℚ) : Option SlopeRecord :=
  match getCol tbl c with
  | none => none
  | some _ =>
    if (colValid tbl c).length < 2 then none
    else
      let accepted := ibAccepted (sortByTime (colValid tbl c))
        (npArange mn (mx + 1/1000) (intervalMin / 60)) mn mx
      if accepted.isEmpty then none
      else some (baseRecord (accepted.map (fun a => a.1))
        (accepted.map (fun a => a.2)) none none c "interval_based")

/-- `_calculate_slopes_interval_based` (lines 511-631). -/
def intervalBased (tbl : Table) (cs : List String) (intervalMin : ℚ) :
    List (String × SlopeRecord) :=
  match minTime tbl, maxTime tbl with
  | some mn, some mx =>
    cs.filterMap (fun c =>
      (intervalBasedCol tbl c intervalMin mn mx).map (fun r => (c, r)))
  | _, _ => []

/-- Line 753-754: an even `window_length` is incremented to the next odd. -/
def adjustWindow (w : ℕ) : ℕ := if w % 2 = 0 then w + 1 else w

/-- `_apply_savgol_smoothing`, one record (lines 758-793), parameterized by
the external `scipy.signal.savgol_filter` implementation `filt`: a slope
array shorter than the (adjusted) window is kept as-is; a `polyorder ≥
window_length` makes `savgol_filter` raise `ValueError`, which the
`except` handler turns into keeping the original record; otherwise the
smoothed record keeps the original slopes alongside. -/
def applySavgolRecord (filt : List ℚ → ℕ → ℕ → List ℚ) (wl po : ℕ)
    (r : SlopeRecord) : SlopeRecord :=
  if r.slopes.length < wl then r
  else if wl ≤ po then r
  else
    { r with
      slopes := filt r.slopes wl po
      originalSlopes := some r.slopes
      smoothed := true
      smoothMethod := some "savgol"
      smoothWindow := some wl
      smoothOrder := some po }

/-- `_apply_savgol_smoothing` (lines 738-795). -/
def applySavgol (filt : List ℚ → ℕ → ℕ → List ℚ)
    (results : List (String × SlopeRecord)) (wl po : ℕ) :
    List (String × SlopeRecord) :=
  results.map (fun cr => (cr.1, applySavgolRecord filt (adjustWindow wl) po cr.2))

/-- `SlopeCalculator.calculate_slopes` (lines 19-83), parameterized by the
external savgol implementation.  `_timeCol` is the `time_column` argument,
unused here because the embedded tables already carry the `relative_time`
axis (the branch the code takes in the pipeline).  The `None`-window
`TypeError`s are the crashes Python would hit on `None / 60.0` inside the
continuous/moving strategies. -/
def calculate_slopes (filt : List ℚ → ℕ → ℕ → List ℚ) (tbl : Table)
    (cs : List String) (_timeCol : String) (intervalMin? : Option ℚ)
    (method : String) (windowMin? leftMin? rightMin? : Option ℚ)
    (calcSecs : ℚ) (smoothing : Bool) (smoothWindow smoothOrder : ℕ) :
    Except String (List (String × SlopeRecord)) :=
  if tbl.times.isEmpty || cs.isEmpty then .ok []
  else
    let res? : Except String (List (String × SlopeRecord)) :=
      if method = "interval_regression" then
        .ok (intervalRegression tbl cs calcSecs leftMin? rightMin?)
      else if method = "continuous_regression" then
        match leftMin?, rightMin? with
        | some l, some r => .ok (continuousRegression tbl cs l r)
        | _, _ => .error "TypeError"
      else if method = "moving_regression" then
        match intervalMin? with
        | some i =>
          .ok (movingRegression tbl cs i
            (windowMin?.getD (if i = 0 then 30 else i * 2)))
        | none => .error "TypeError"
      else if method = "interval_based" then
        .ok (intervalBased tbl cs (intervalMin?.getD 30))
      else .error ("Unknown method: " ++ method)
    match res? with
    | .error e => .error e
    | .ok res =>
      .ok (if smoothing && !res.isEmpty then
        applySavgol filt res smoothWindow smoothOrder else res)

/-- A stand-in for the external savgol filter that visibly changes every
entry — used to exhibit that the guard branches never invoke the filter. -/
def bumpFilt : List ℚ → ℕ → ℕ → List ℚ := fun xs _ _ => xs.map (fun v => v + 1)

/-- A record whose slope array (length 5) is long enough for a window of 3. -/
def polyRec : SlopeRecord :=
  baseRecord [0, 1, 2, 3, 4] [5, 6, 5, 6, 5] none none "h2o" "interval_regression"

/-- A record whose slope array (length 2) is shorter than a window of 15. -/
def shortRec : SlopeRecord :=
  baseRecord [0, 1] [2, 3] none none "h2o" "interval_based"

/-- Two valid samples spanning only 0.01 h, against the default 30-minute
cadence. -/
def tbl5 : Table := ⟨[some 0, some (1/100)], [("c", [some 3, some 4])]⟩

/-- A two-valid-sample table spanning a full hour. -/
def tbl2s : Table := ⟨[some 0, some 1], [("c", [some 5, some 7])]⟩

/-- `n` exactly evenly-spaced samples of the exactly linear series
`value = a·time + b`, starting at `t0` with spacing `d`. -/
def linSamples (t0 d : ℚ) (n : ℕ) (a b : ℚ) : List (ℚ × ℚ) :=
  (List.range n).map
    (fun (k : ℕ) => (t0 + (k : ℚ) * d, a * (t0 + (k : ℚ) * d) + b))

/-- Four evenly spaced samples (spacing 0.5 h) of the line `y = 3t + 7`. -/
def tbl9 : Table := ⟨[some 0, some (1/2), some 1, some (3/2)],
  [("c", [some 7, some (17/2), some 10, some (23/2)])]⟩

/-- One early sample and three samples clustered within 0.0001 h of the
2-hour mark, on the line `y = t` (the early sample's value is irrelevant). -/
def tblC6 : Table :=
  ⟨[some 0, some (39999/20000), some (99999/50000), some 2],
   [("c", [some 7, some (39999/20000), some (99999/50000), some 2])]⟩

/-- Five hourly samples of the line `y = t + 10`. -/
def tblW : Table := ⟨[some 0, some 1, some 2, some 3, some 4],
  [("c", [some 10, some 11, some 12, some 13, some 14])]⟩

/-- The continuous-regression record `tblW` produces with 300-minute
windows: every sample timestamp is an evaluation point, each window holds
all five samples and fits slope 1 with r² = 1. -/
def recW : SlopeRecord :=
  regRecord [(0, (1, 1, 5)), (1, (1, 1, 5)), (2, (1, 1, 5)), (3, (1, 1, 5)),
    (4, (1, 1, 5))] "c" "continuous_regression"

end SlopeCalculator

namespace CalibrationCore

/-- C1 (counterexample): the claim quantifies over every `p_ref > 0`, but for
`0 < p_ref < 1e-10` the clamp of line 37 rewrites the pressure before the
division, the ratio is no longer `1`, and the identity fails badly: with
`f1 = 1, f2 = 0, p_ref = 1e-11` the reading `ppm = 1` is calibrated (at
`pressure = p_ref`) to `exp ((log 10)^2) > 5`, far outside any floating
tolerance around `ppm = 1`. -/
theorem calibrate_not_identity_at_tiny_pref :
    (0:ℝ) < 1e-11 ∧ 5 < calibrate 1 0 1e-11 1 1e-11 ∧
      calibrate 1 0 1e-11 1 1e-11 ≠ 1 := by
  have hclamp : clampedPressure 1e-11 = 1e-10 := by
    unfold clampedPressure
    exact max_eq_right (by norm_num)
  have hrat : pressureRat 1e-11 1e-11 = 1/10 := by
    unfold pressureRat
    rw [hclamp]; norm_num
  have hlogpos : 0 < Real.log 10 := Real.log_pos (by norm_num)
  have hlog2 : 2 < Real.log 10 := by
    have hexp2 : Real.exp 2 < 10 := by
      have h1 : Real.exp 1 < 2.7182818286 := Real.exp_one_lt_d9
      have : Real.exp 2 = Real.exp 1 * Real.exp 1 := by
        rw [← Real.exp_add]; norm_num
      nlinarith [Real.exp_pos 1]
    exact (Real.lt_log_iff_exp_lt (by norm_num : (0:ℝ) < 10)).mpr hexp2
  have hlogle : Real.log 10 ≤ 10 := by
    have := Real.log_le_sub_one_of_pos (by norm_num : (0:ℝ) < 10)
    linarith
  have hexpo : exponentOf 1 0 1e-11 1e-11 = -Real.log 10 := by
    unfold exponentOf clip
    rw [hrat]
    have hlog : Real.log (1/10 : ℝ) = -Real.log 10 := by
      rw [one_div, Real.log_inv]
    rw [hlog]
    have h1 : (1:ℝ) * -Real.log 10 + 0 = -Real.log 10 := by ring
    rw [h1]
    rw [max_eq_left (by linarith), min_eq_left (by linarith)]
  have hval : calibrate 1 0 1e-11 1 1e-11 = Real.exp (Real.log 10 * Real.log 10) := by
    unfold calibrate powerFactor
    rw [hexpo, hrat]
    rw [Real.rpow_def_of_pos (by norm_num : (0:ℝ) < 1/10)]
    rw [one_div, Real.log_inv]
    ring_nf
  refine ⟨by norm_num, ?_, ?_⟩
  · rw [hval]
    have h4 : (4:ℝ) < Real.log 10 * Real.log 10 := by nlinarith
    have := Real.add_one_le_exp (Real.log 10 * Real.log 10)
    linarith
  · rw [hval]
    have h4 : (4:ℝ) < Real.log 10 * Real.log 10 := by nlinarith
    have := Real.add_one_le_exp (Real.log 10 * Real.log 10)
    intro hcontra
    rw [hcontra] at this
    linarith

/-- C1 (amended): identity at the reference pressure holds for every parameter
triple whose `p_ref` is at least the clamping epsilon `1e-10` (so that the
clamp of line 37 leaves it unchanged): then the ratio is `1`, its logarithm
`0`, the exponent reduces to the clipped `f2`, and `1 ^ e = 1`, so
`calibrate(ppm, p_ref) = ppm` exactly, for every `f1`, `f2` and `ppm`. -/
theorem calibrate_identity_at_reference (f1 f2 pRef ppm : ℝ)
    (h : (1e-10 : ℝ) ≤ pRef) :
    calibrate f1 f2 pRef ppm pRef = ppm := by
  have hpos : (0:ℝ) < pRef := lt_of_lt_of_le (by norm_num) h
  have hclamp : clampedPressure pRef = pRef := max_eq_left h
  have hrat : pressureRat pRef pRef = 1 := by
    unfold pressureRat
    rw [hclamp, div_self (ne_of_gt hpos)]
  unfold calibrate powerFactor
  rw [hrat, Real.one_rpow, mul_one]

/-- Witness for C1's amended theorem at the default parameters
`f1 = 0.196798, f2 = 0.419073, p_ref = 1` and reading `42`. -/
theorem calibrate_identity_at_reference_witness :
    calibrate 0.196798 0.419073 1 42 1 = 42 :=
  calibrate_identity_at_reference 0.196798 0.419073 1 42 (by norm_num)

/-- C2: for every non-positive pressure the clamp of line 37 replaces the
pressure by `1e-10`, so `calibrate` returns exactly the value it returns at
the epsilon pressure; moreover (for a positive reference pressure) the
multiplicative factor applied to the reading is a strictly positive real
number — the exact-arithmetic rendering of "finite, never NaN or infinity":
the division is by the positive clamped pressure and the power has positive
base, so no undefined or unbounded operation occurs. -/
theorem calibrate_clamped_at_nonpositive_pressure (f1 f2 pRef ppm pressure : ℝ)
    (hp : pressure ≤ 0) :
    calibrate f1 f2 pRef ppm pressure = calibrate f1 f2 pRef ppm 1e-10 ∧
      (0 < pRef → 0 < powerFactor f1 f2 pRef pressure) := by
  have h1 : clampedPressure pressure = 1e-10 :=
    max_eq_right (le_trans hp (by norm_num))
  have h2 : clampedPressure 1e-10 = 1e-10 := max_self _
  constructor
  · unfold calibrate powerFactor exponentOf pressureRat
    rw [h1, h2]
  · intro hpr
    unfold powerFactor
    apply Real.rpow_pos_of_pos
    unfold pressureRat
    rw [h1]
    positivity

/-- Witness for C2 at the default parameters with `pressure = -1 ≤ 0`. -/
theorem calibrate_clamped_at_nonpositive_pressure_witness :
    calibrate 0.196798 0.419073 1 42 (-1) = calibrate 0.196798 0.419073 1 42 1e-10 ∧
      0 < powerFactor 0.196798 0.419073 1 (-1) := by
  have h := calibrate_clamped_at_nonpositive_pressure 0.196798 0.419073 1 42 (-1)
    (by norm_num)
  exact ⟨h.1, h.2 (by norm_num)⟩

/-- C4 (confirmed): `calibrate_single_pair` returns `none` exactly when one of
the two named columns is absent or no row has both cells numeric with strictly
positive pressure; and `batch_calibrate` is insensitive to dropping the pairs
whose calibration is `none` — null pairs are simply omitted from the result
map, no error is surfaced. -/
theorem calibrate_single_pair_none_iff_and_batch_omits (f1 f2 pRef : ℝ)
    (tbl : CalTable) (mCol pCol : String) (prs : List (String × String)) :
    (calibrate_single_pair f1 f2 pRef tbl mCol pCol = none ↔
      lookupCol tbl mCol = none ∨ lookupCol tbl pCol = none ∨
        tableValidPairs tbl mCol pCol = []) ∧
    batch_calibrate f1 f2 pRef tbl prs =
      batch_calibrate f1 f2 pRef tbl
        (prs.filter (fun pr =>
          (calibrate_single_pair f1 f2 pRef tbl pr.1 pr.2).isSome)) := by
  constructor
  · unfold calibrate_single_pair tableValidPairs
    rcases h1 : lookupCol tbl mCol with _ | ms
    · simp
    rcases h2 : lookupCol tbl pCol with _ | ps
    · simp
    simp only [List.isEmpty_iff]
    by_cases hv : validPairsCal ms ps = []
    · simp [hv]
    · simp [hv]
  · induction prs with
    | nil => rfl
    | cons hd tl ih =>
      rcases hd with ⟨m, p⟩
      rcases h : calibrate_single_pair f1 f2 pRef tbl m p with _ | r
      · simp only [batch_calibrate, List.filter_cons, h, Option.isSome_none,
          Bool.false_eq_true, if_false, ih]
      · simp only [batch_calibrate, List.filter_cons, h, Option.isSome_some,
          if_true, ih]

/-- C3 (counterexample): the claim ties `no_overlap` to "no time bucket has
≥2 contributing records", but the code counts bucketed *values*: here the
first record alone contributes two values at time `0`, no bucket is touched
by two distinct records, and the code still reports `poor` (variance `1`
against tolerance `1/10`) instead of the claim's `no_overlap`. -/
theorem validate_overlap_within_single_record :
    (∀ b ∈ buckets [[(0, 2), (0, 4)], [(5, 7)]], recordsTouching [[(0, 2), (0, 4)], [(5, 7)]] b.1 < 2) ∧
    (validate_calibration [[(0, 2), (0, 4)], [(5, 7)]] (1/10)).status = "poor" ∧
    (validate_calibration [[(0, 2), (0, 4)], [(5, 7)]] (1/10)).status ≠ "no_overlap" := by
  have hb : buckets [[(0, 2), (0, 4)], [(5, 7)]] = [(0, [2, 4]), (5, [7])] := by
    norm_num [buckets, addToBucket, round3, roundHalfEven]
  have hv : bucketVariances [[(0, 2), (0, 4)], [(5, 7)]] = [1] := by
    rw [bucketVariances, hb]
    norm_num [popVar, mean, List.filterMap_cons, List.filterMap_nil]
  have hs : (validate_calibration [[(0, 2), (0, 4)], [(5, 7)]] (1/10)).status = "poor" := by
    unfold validate_calibration
    rw [hv]
    norm_num [listMax, mean, List.headI, max_def]
  refine ⟨?_, hs, by rw [hs]; decide⟩
  · rw [hb]
    intro b hb'
    fin_cases hb' <;>
      norm_num [recordsTouching, List.filter_cons, List.filter_nil,
        List.any_cons, List.any_nil, round3, roundHalfEven]

/-- C3 (amended): the status taxonomy with "contributing records" replaced by
"contributed values": `insufficient_data` iff fewer than 2 records;
otherwise `no_overlap` iff no time bucket holds ≥2 values; otherwise
`good` iff `max_variance < tolerance`, `acceptable` iff `avg_variance <
tolerance` but not `good`, and `poor` otherwise, the variances ranging over
buckets with ≥2 values. -/
theorem validate_calibration_status (records : List (List (ℚ × ℚ))) (tolerance : ℚ) :
    ((validate_calibration records tolerance).status = "insufficient_data" ↔
      records.length < 2) ∧
    (2 ≤ records.length →
      (((validate_calibration records tolerance).status = "no_overlap" ↔
        ∀ b ∈ buckets records, b.2.length < 2) ∧
      (bucketVariances records ≠ [] →
        ((validate_calibration records tolerance).status = "good" ↔
          listMax (bucketVariances records) < tolerance) ∧
        ((validate_calibration records tolerance).status = "acceptable" ↔
          (mean (bucketVariances records) < tolerance ∧
            ¬ listMax (bucketVariances records) < tolerance)) ∧
        ((validate_calibration records tolerance).status = "poor" ↔
          (¬ mean (bucketVariances records) < tolerance ∧
            ¬ listMax (bucketVariances records) < tolerance))))) := by
  have hempty : bucketVariances records = [] ↔
      ∀ b ∈ buckets records, b.2.length < 2 := by
    unfold bucketVariances
    rw [List.filterMap_eq_nil_iff]
    constructor
    · intro h b hb
      have := h b hb
      by_contra hlen
      rw [if_pos (by omega)] at this
      exact Option.some_ne_none _ this
    · intro h b hb
      rw [if_neg (by have := h b hb; omega)]
  unfold validate_calibration
  by_cases h1 : records.length < 2
  · rw [if_pos h1]
    exact ⟨iff_of_true rfl h1, fun h2 => absurd h2 (by omega)⟩
  · rw [if_neg h1]
    by_cases h2 : bucketVariances records = []
    · rw [if_pos h2]
      exact ⟨iff_of_false (by decide) h1,
        fun _ => ⟨iff_of_true rfl (hempty.mp h2), fun hne => absurd h2 hne⟩⟩
    · rw [if_neg h2]
      by_cases hg : listMax (bucketVariances records) < tolerance
      · refine ⟨iff_of_false (by simp [hg]) h1, fun _ =>
          ⟨iff_of_false (by simp [hg]) (fun hall => h2 (hempty.mpr hall)), fun _ =>
            ⟨iff_of_true (by simp [hg]) hg,
             iff_of_false (by simp [hg]) (fun hc => hc.2 hg),
             iff_of_false (by simp [hg]) (fun hc => hc.2 hg)⟩⟩⟩
      · by_cases ha : mean (bucketVariances records) < tolerance
        · refine ⟨iff_of_false (by simp [hg, ha]) h1, fun _ =>
            ⟨iff_of_false (by simp [hg, ha]) (fun hall => h2 (hempty.mpr hall)), fun _ =>
              ⟨iff_of_false (by simp [hg, ha]) (fun hlt => hg hlt),
               iff_of_true (by simp [hg, ha]) ⟨ha, hg⟩,
               iff_of_false (by simp [hg, ha]) (fun hc => hc.1 ha)⟩⟩⟩
        · refine ⟨iff_of_false (by simp [hg, ha]) h1, fun _ =>
            ⟨iff_of_false (by simp [hg, ha]) (fun hall => h2 (hempty.mpr hall)), fun _ =>
              ⟨iff_of_false (by simp [hg, ha]) (fun hlt => hg hlt),
               iff_of_false (by simp [hg, ha]) (fun hc => ha hc.1),
               iff_of_true (by simp [hg, ha]) ⟨ha, hg⟩⟩⟩⟩

/-- Witness for C3's amended characterization: two overlapping low-variance
records are classified `good` at tolerance `1/10`. -/
theorem validate_calibration_status_witness :
    (validate_calibration [[(1, 3)], [(1, 301/100)]] (1/10)).status = "good" := by
  have hv : bucketVariances [[(1, 3)], [(1, 301/100)]] = [1/40000] := by
    norm_num [bucketVariances, buckets, addToBucket, round3, roundHalfEven,
      popVar, mean, List.filterMap_cons, List.filterMap_nil]
  exact (((validate_calibration_status [[(1, 3)], [(1, 301/100)]] (1/10)).2
      (by norm_num)).2 (by rw [hv]; exact List.cons_ne_nil _ _)).1.mpr
    (by rw [hv]; norm_num [listMax, List.headI, max_def])

end CalibrationCore

namespace SlopeCalculator

/-- C7 (counterexample): with `window_length = 3` (odd, long enough for the
5-point slope array) and `polynomial_order = 5`, the constraint
`window_length > polynomial_order` is violated; the claim says the order is
auto-corrected before the filter runs, but the code never touches
`polyorder` — `savgol_filter` raises and the `except` handler keeps the
record bit-identical, unsmoothed (`smoothed = false`, no fields added),
even though the filter (here `bumpFilt`) would have changed the slopes. -/
theorem savgol_polyorder_not_corrected :
    adjustWindow 3 = 3 ∧ 3 ≤ polyRec.slopes.length ∧ ¬ 3 > 5 ∧
    applySavgol bumpFilt [("h2o", polyRec)] 3 5 = [("h2o", polyRec)] ∧
    polyRec.smoothed = false := by
  refine ⟨rfl, by decide, by omega, ?_, rfl⟩
  show [("h2o", applySavgolRecord bumpFilt (adjustWindow 3) 5 polyRec)] =
    [("h2o", polyRec)]
  have h : applySavgolRecord bumpFilt (adjustWindow 3) 5 polyRec = polyRec := by
    unfold applySavgolRecord
    rw [if_neg (by decide), if_pos (by decide)]
  rw [h]

/-- C7 (amended): the window is forced odd (incremented when even) before
any column is touched, but the polynomial order is NOT corrected: whenever
the (adjusted) window is `≤ polynomial_order`, the filter call raises inside
the per-column `try`, the handler keeps the original record, and the whole
smoothing pass is the identity. -/
theorem savgol_parameter_handling (filt : List ℚ → ℕ → ℕ → List ℚ)
    (results : List (String × SlopeRecord)) (wl po : ℕ) :
    Odd (adjustWindow wl) ∧
    (wl % 2 = 0 → adjustWindow wl = wl + 1) ∧
    (adjustWindow wl ≤ po → applySavgol filt results wl po = results) := by
  refine ⟨?_, ?_, ?_⟩
  · rw [Nat.odd_iff]
    unfold adjustWindow
    split
    · omega
    · omega
  · intro h
    unfold adjustWindow
    rw [if_pos h]
  · intro h
    unfold applySavgol
    induction results with
    | nil => rfl
    | cons hd tl ih =>
      rw [List.map_cons, ih]
      have hrec : applySavgolRecord filt (adjustWindow wl) po hd.2 = hd.2 := by
        unfold applySavgolRecord
        by_cases hlen : hd.2.slopes.length < adjustWindow wl
        · rw [if_pos hlen]
        · rw [if_neg hlen, if_pos h]
      rw [hrec]

/-- Witness for C7's amended theorem: an even window `4` becomes `5` (odd),
and with `polyorder = 9 ≥ 5` the pass returns its input unchanged. -/
theorem savgol_parameter_handling_witness :
    Odd (adjustWindow 4) ∧ adjustWindow 4 = 4 + 1 ∧
      applySavgol bumpFilt [("h2o", polyRec)] 4 9 = [("h2o", polyRec)] := by
  have h := savgol_parameter_handling bumpFilt [("h2o", polyRec)] 4 9
  exact ⟨h.1, h.2.1 (by decide), h.2.2 (by decide)⟩

/-- C8 (confirmed): a record whose slope array is shorter than the requested
`window_length` passes through the smoothing pass bit-identical — same
record value, every field untouched, no smoothing fields added — both as a
single record and as a member of the pass over a whole result map. -/
theorem savgol_short_series_unchanged (filt : List ℚ → ℕ → ℕ → List ℚ)
    (wl po : ℕ) (r : SlopeRecord) (h : r.slopes.length < wl) :
    applySavgolRecord filt (adjustWindow wl) po r = r ∧
    ∀ (c : String) (results : List (String × SlopeRecord)),
      (c, r) ∈ results → (c, r) ∈ applySavgol filt results wl po := by
  have hw : wl ≤ adjustWindow wl := by
    unfold adjustWindow
    split
    · omega
    · omega
  have h1 : applySavgolRecord filt (adjustWindow wl) po r = r := by
    unfold applySavgolRecord
    rw [if_pos (lt_of_lt_of_le h hw)]
  refine ⟨h1, fun c results hmem => ?_⟩
  unfold applySavgol
  refine List.mem_map.mpr ⟨(c, r), hmem, ?_⟩
  show (c, applySavgolRecord filt (adjustWindow wl) po r) = (c, r)
  rw [h1]

/-- Witness for C8 at a concrete short record (2 slopes, window 15). -/
theorem savgol_short_series_unchanged_witness :
    applySavgolRecord bumpFilt (adjustWindow 15) 2 shortRec = shortRec ∧
      ("h2o", shortRec) ∈ applySavgol bumpFilt [("h2o", shortRec)] 15 2 := by
  have h := savgol_short_series_unchanged bumpFilt 15 2 shortRec (by decide)
  exact ⟨h.1, h.2 "h2o" [("h2o", shortRec)] (by simp)⟩

/-- C10 (confirmed): `calculate_slopes` returns the empty map whenever the
table is empty (no rows) or the selected-column list is empty, whatever the
method string (known or not); on a non-empty table with a non-empty column
list, a method tag outside the four known strategies raises
`ValueError(f"Unknown method: {method}")` instead of returning. -/
theorem calculate_slopes_dispatch (filt : List ℚ → ℕ → ℕ → List ℚ)
    (tbl : Table) (cs : List String) (tc : String) (intervalMin? : Option ℚ)
    (method : String) (windowMin? leftMin? rightMin? : Option ℚ)
    (calcSecs : ℚ) (sm : Bool) (sw so : ℕ) :
    ((tbl.times = [] ∨ cs = []) →
      calculate_slopes filt tbl cs tc intervalMin? method windowMin? leftMin?
        rightMin? calcSecs sm sw so = .ok []) ∧
    (tbl.times ≠ [] → cs ≠ [] →
      method ∉ (["interval_regression", "continuous_regression",
        "moving_regression", "interval_based"] : List String) →
      calculate_slopes filt tbl cs tc intervalMin? method windowMin? leftMin?
        rightMin? calcSecs sm sw so =
          .error ("Unknown method: " ++ method)) := by
  constructor
  · intro h
    have hb : (tbl.times.isEmpty || cs.isEmpty) = true := by
      rcases h with h | h
      · rw [h]; rfl
      · rw [h]; simp
    unfold calculate_slopes
    rw [if_pos hb]
  · intro h1 h2 hm
    have hb : ¬ ((tbl.times.isEmpty || cs.isEmpty) = true) := by
      simp only [Bool.or_eq_true, List.isEmpty_iff]
      push_neg
      exact ⟨h1, h2⟩
    simp only [List.mem_cons, List.not_mem_nil, or_false, not_or] at hm
    obtain ⟨hm1, hm2, hm3, hm4⟩ := hm
    unfold calculate_slopes
    rw [if_neg hb, if_neg hm1, if_neg hm2, if_neg hm3, if_neg hm4]

/-- Witness for C10: an empty table returns `ok []` under an unknown method,
and a one-row table with an unknown method errors. -/
theorem calculate_slopes_dispatch_witness :
    calculate_slopes bumpFilt ⟨[], []⟩ ["h2o"] "t" none "bogus" none none none
        30 false 15 2 = .ok [] ∧
    calculate_slopes bumpFilt ⟨[some 0], [("h2o", [some 1])]⟩ ["h2o"] "t" none
        "bogus" none none none 30 false 15 2 =
      .error ("Unknown method: " ++ "bogus") := by
  refine ⟨(calculate_slopes_dispatch bumpFilt ⟨[], []⟩ ["h2o"] "t" none "bogus"
    none none none 30 false 15 2).1 (Or.inl rfl), ?_⟩
  exact (calculate_slopes_dispatch bumpFilt ⟨[some 0], [("h2o", [some 1])]⟩
    ["h2o"] "t" none "bogus" none none none 30 false 15 2).2
    (by simp) (by simp) (by decide)

/-- Every arange value lies in `[start, stop)` (positive step). -/
theorem mem_npArange {s e st t : ℚ} (hst : 0 < st) (h : t ∈ npArange s e st) :
    s ≤ t ∧ t < e := by
  unfold npArange at h
  rw [if_pos hst] at h
  obtain ⟨k, hk, rfl⟩ := List.mem_map.mp h
  rw [List.mem_range] at hk
  constructor
  · have : (0:ℚ) ≤ (k : ℚ) * st := by positivity
    linarith
  · have hkc : (k : ℚ) + 1 ≤ ((Int.toNat ⌈(e - s) / st⌉ : ℤ) : ℚ) := by
      have : (k : ℤ) + 1 ≤ (Int.toNat ⌈(e - s) / st⌉ : ℤ) := by
        exact_mod_cast hk
      exact_mod_cast this
    have htn : (Int.toNat ⌈(e - s) / st⌉ : ℤ) ≤ max ⌈(e - s) / st⌉ 0 := by
      rw [Int.toNat_eq_max]
    have hpos : 0 < ⌈(e - s) / st⌉ := by
      by_contra hc
      push_neg at hc
      have : Int.toNat ⌈(e - s) / st⌉ = 0 := Int.toNat_of_nonpos hc
      omega
    have htn2 : ((Int.toNat ⌈(e - s) / st⌉ : ℤ) : ℚ) ≤ (⌈(e - s) / st⌉ : ℚ) := by
      have := htn
      rw [max_eq_left (le_of_lt hpos)] at this
      exact_mod_cast this
    have hceil : (⌈(e - s) / st⌉ : ℚ) < (e - s) / st + 1 := Int.ceil_lt_add_one _
    have hkq : (k : ℚ) < (e - s) / st := by linarith
    have := (lt_div_iff₀ hst).mp hkq
    linarith

/-- When the step fits inside the range, the grid starts `s, s + st, …`. -/
theorem npArange_cons₂ {s e st : ℚ} (hst : 0 < st) (hlt : st < e - s) :
    ∃ l, npArange s e st = s :: (s + st) :: l := by
  obtain ⟨m, hm⟩ : ∃ m, Int.toNat ⌈(e - s) / st⌉ = m + 2 := by
    have h1 : (1:ℚ) < (e - s) / st := (lt_div_iff₀ hst).mpr (by linarith)
    have h2 : 1 < ⌈(e - s) / st⌉ := by
      rw [Int.lt_ceil]
      exact_mod_cast h1
    exact ⟨Int.toNat ⌈(e - s) / st⌉ - 2, by omega⟩
  refine ⟨(List.range m).map (fun (k : ℕ) => s + ((k : ℚ) + 2) * st), ?_⟩
  unfold npArange
  rw [if_pos hst, hm]
  simp only [List.range_succ_eq_map, List.map_cons, List.map_map]
  refine congrArg₂ List.cons (by push_cast; ring) ?_
  refine congrArg₂ List.cons (by push_cast; ring) ?_
  refine List.map_congr_left (fun k _ => ?_)
  show s + ((Nat.succ (Nat.succ k) : ℕ) : ℚ) * st = s + ((k : ℚ) + 2) * st
  push_cast
  ring

/-- The `i`-th grid point is `s + i·st`. -/
theorem npArange_get {s e st : ℚ} (hst : 0 < st) (i : ℕ)
    (h1 : i < (npArange s e st).length) :
    (npArange s e st).get ⟨i, h1⟩ = s + (i : ℚ) * st := by
  have he : npArange s e st =
      (List.range (Int.toNat ⌈(e - s) / st⌉)).map
        (fun (k : ℕ) => s + (k : ℚ) * st) := by
    unfold npArange
    rw [if_pos hst]
  revert h1
  rw [he]
  intro h1
  simp [List.get_map, List.get_range]

theorem consecPairs_cons₂ (a b : α) (l : List α) :
    consecPairs (a :: b :: l) = (a, b) :: consecPairs (b :: l) := rfl

/-- A member of `consecPairs` is a pair of adjacent elements. -/
theorem mem_consecPairs {l : List α} {pr : α × α} (h : pr ∈ consecPairs l) :
    ∃ i, ∃ h1 : i < l.length, ∃ h2 : i + 1 < l.length,
      pr = (l.get ⟨i, h1⟩, l.get ⟨i + 1, h2⟩) := by
  induction l with
  | nil => exact absurd h (List.not_mem_nil _)
  | cons a l ih =>
    cases l with
    | nil => exact absurd h (List.not_mem_nil _)
    | cons b l' =>
      rw [consecPairs_cons₂] at h
      rcases List.mem_cons.mp h with h | h
      · exact ⟨0, by simp, by simp, by simp [h]⟩
      · obtain ⟨i, h1, h2, hpr⟩ := ih h
        exact ⟨i + 1, by simpa using Nat.succ_lt_succ h1,
          by simpa using Nat.succ_lt_succ h2, hpr⟩

/-- Both components of a consecutive pair belong to the list. -/
theorem consecPairs_mem {l : List α} {pr : α × α} (h : pr ∈ consecPairs l) :
    pr.1 ∈ l ∧ pr.2 ∈ l := by
  unfold consecPairs at h
  rcases pr with ⟨a, b⟩
  exact ⟨(List.of_mem_zip h).1, List.mem_of_mem_tail (List.of_mem_zip h).2⟩

/-- A `filterMap` that acts as `if p then some (g x) else none` pointwise is
`filter`-then-`map`. -/
theorem filterMap_eq_filter_map {l : List β} {F : β → Option γ} {p : β → Bool}
    {g : β → γ} (h : ∀ x ∈ l, F x = if p x then some (g x) else none) :
    l.filterMap F = (l.filter p).map g := by
  induction l with
  | nil => rfl
  | cons a l ih =>
    rw [List.filterMap_cons, List.filter_cons]
    have ha := h a (List.mem_cons_self a l)
    by_cases hp : p a
    · rw [ha, if_pos hp, if_pos hp, List.map_cons,
        ih (fun x hx => h x (List.mem_cons_of_mem a hx))]
    · rw [ha, if_neg hp, if_neg hp, ih (fun x hx => h x (List.mem_cons_of_mem a hx))]

/-- A column whose per-column computation yields `none` is absent from the
per-method result map. -/
theorem lookup_resMap_none {β : Type} (f : String → Option β) (cs : List String)
    (col : String) (h : f col = none) :
    List.lookup col (cs.filterMap (fun c => (f c).map (fun r => (c, r)))) = none := by
  induction cs with
  | nil => rfl
  | cons c tl ih =>
    rw [List.filterMap_cons]
    cases hfc : f c with
    | none => exact ih
    | some r =>
      simp only [Option.map_some']
      rw [List.lookup_cons]
      by_cases hc : c = col
      · subst hc
        rw [hfc] at h
        cases h
      · rw [beq_eq_false_iff_ne.mpr (fun he => hc he.symm)]
        exact ih

/-- A record looked up in a per-method result map comes from its column's
per-column computation. -/
theorem lookup_resMap_some {β : Type} (f : String → Option β) (cs : List String)
    (col : String) (r : β)
    (h : List.lookup col (cs.filterMap (fun c => (f c).map (fun r => (c, r)))) = some r) :
    f col = some r := by
  induction cs with
  | nil => cases h
  | cons c tl ih =>
    rw [List.filterMap_cons] at h
    cases hfc : f c with
    | none =>
      rw [hfc] at h
      exact ih h
    | some rc =>
      rw [hfc] at h
      simp only [Option.map_some'] at h
      rw [List.lookup_cons] at h
      by_cases hc : c = col
      · subst hc
        rw [beq_self_eq_true] at h
        rw [hfc]
        exact h
      · rw [beq_eq_false_iff_ne.mpr (fun he => hc he.symm)] at h
        exact ih h

/-- Conversely, a column of the selection whose computation yields a record
is present in the result map with that record. -/
theorem lookup_resMap_mem {β : Type} (f : String → Option β) (cs : List String)
    (col : String) (r : β) (hmem : col ∈ cs) (h : f col = some r) :
    List.lookup col (cs.filterMap (fun c => (f c).map (fun r => (c, r)))) = some r := by
  induction cs with
  | nil => cases hmem
  | cons c tl ih =>
    rw [List.filterMap_cons]
    by_cases hc : c = col
    · subst hc
      rw [h]
      simp only [Option.map_some']
      rw [List.lookup_cons, beq_self_eq_true]
    · have hmem' : col ∈ tl := by
        rcases List.mem_cons.mp hmem with he | ht
        · exact absurd he.symm hc
        · exact ht
      cases hfc : f c with
      | none => exact ih hmem'
      | some rc =>
        simp only [Option.map_some']
        rw [List.lookup_cons, beq_eq_false_iff_ne.mpr (fun he => hc he.symm)]
        exact ih hmem'

/-- `foldl min` is a lower bound of the seed and every element. -/
theorem foldl_min_le (xs : List ℚ) (x : ℚ) :
    (∀ t ∈ xs, xs.foldl min x ≤ t) ∧ xs.foldl min x ≤ x := by
  induction xs generalizing x with
  | nil => exact ⟨fun t ht => absurd ht (List.not_mem_nil t), le_refl x⟩
  | cons y ys ih =>
    have hy : List.foldl min x (y :: ys) = List.foldl min (min x y) ys := rfl
    constructor
    · intro t ht
      rcases List.mem_cons.mp ht with h | h
      · rw [hy, h]
        exact le_trans (ih (min x y)).2 (min_le_right x y)
      · rw [hy]
        exact (ih (min x y)).1 t h
    · rw [hy]
      exact le_trans (ih (min x y)).2 (min_le_left x y)

/-- `foldl max` is an upper bound of the seed and every element. -/
theorem le_foldl_max (xs : List ℚ) (x : ℚ) :
    (∀ t ∈ xs, t ≤ xs.foldl max x) ∧ x ≤ xs.foldl max x := by
  induction xs generalizing x with
  | nil => exact ⟨fun t ht => absurd ht (List.not_mem_nil t), le_refl x⟩
  | cons y ys ih =>
    have hy : List.foldl max x (y :: ys) = List.foldl max (max x y) ys := rfl
    constructor
    · intro t ht
      rcases List.mem_cons.mp ht with h | h
      · rw [hy, h]
        exact le_trans (le_max_right x y) (ih (max x y)).2
      · rw [hy]
        exact (ih (max x y)).1 t h
    · rw [hy]
      exact le_trans (le_max_left x y) (ih (max x y)).2

/-- `time_data.min()` bounds every non-NaN time from below. -/
theorem minTime_le {tbl : Table} {mn : ℚ} (h : minTime tbl = some mn) :
    ∀ t ∈ timeVals tbl, mn ≤ t := by
  intro t ht
  unfold minTime at h
  cases hv : timeVals tbl with
  | nil =>
    rw [hv] at ht
    cases ht
  | cons x xs =>
    rw [hv] at h ht
    have hmn : some (xs.foldl min x) = some mn := h
    rw [← Option.some_inj.mp hmn]
    rcases List.mem_cons.mp ht with h' | h'
    · rw [h']
      exact (foldl_min_le xs x).2
    · exact (foldl_min_le xs x).1 t h'

/-- `time_data.max()` bounds every non-NaN time from above. -/
theorem le_maxTime {tbl : Table} {mx : ℚ} (h : maxTime tbl = some mx) :
    ∀ t ∈ timeVals tbl, t ≤ mx := by
  intro t ht
  unfold maxTime at h
  cases hv : timeVals tbl with
  | nil =>
    rw [hv] at ht
    cases ht
  | cons x xs =>
    rw [hv] at h ht
    have hmx : some (xs.foldl max x) = some mx := h
    rw [← Option.some_inj.mp hmx]
    rcases List.mem_cons.mp ht with h' | h'
    · rw [h']
      exact (le_foldl_max xs x).2
    · exact (le_foldl_max xs x).1 t h'

/-- The time of a valid sample appears on the (non-NaN) time axis. -/
theorem colValid_time_mem {tbl : Table} {c : String} {p : ℚ × ℚ}
    (h : p ∈ colValid tbl c) : p.1 ∈ timeVals tbl := by
  unfold colValid at h
  cases hg : getCol tbl c with
  | none =>
    rw [hg] at h
    cases h
  | some cells =>
    rw [hg] at h
    obtain ⟨⟨ot, ov⟩, hmem, hp⟩ := List.mem_filterMap.mp h
    cases ot with
    | none => cases hp
    | some tv =>
      cases ov with
      | none => cases hp
      | some v =>
        simp only [Option.some_inj] at hp
        have h1 : (some tv) ∈ tbl.times := (List.of_mem_zip hmem).1
        unfold timeVals
        refine List.mem_filterMap.mpr ⟨some tv, h1, ?_⟩
        rw [← hp]
        rfl

/-- Interpolation over two knots with distinct times is total. -/
theorem interpSegs_pair_isSome {a b ya yb x : ℚ} (hab : a ≠ b) :
    (interpSegs [(a, ya), (b, yb)] x).isSome = true := by
  unfold interpSegs
  rw [if_pos (Or.inr rfl), if_neg (fun he => hab he.symm)]
  rfl

/-- Sorting a two-sample list by time. -/
theorem sortByTime_pair (t1 v1 t2 v2 : ℚ) :
    sortByTime [(t1, v1), (t2, v2)] =
      if t1 ≤ t2 then [(t1, v1), (t2, v2)] else [(t2, v2), (t1, v1)] := by
  unfold sortByTime
  simp [List.insertionSort, List.orderedInsert]

/-- C5 (amended): a column with exactly 2 valid samples is entirely absent
from the result maps of the interval-regression, continuous-regression and
moving-regression methods (each requires ≥ 3 valid samples); it is present
in the interval-based two-point result provided additionally that the
evaluation grid is non-degenerate: the derived time axis has positive span
`mn < mx`, the cadence is positive and fits the padded span
(`interval_hours < mx - mn + 0.001`), and the two valid samples carry
distinct times (so the linear interpolant is well defined).  (The
counterexample shows the two-point method may otherwise skip the column.) -/
theorem two_sample_column_method_presence (tbl : Table) (cs : List String)
    (col : String) (calcSecs intervalMin windowMin cLeft cRight ibMin : ℚ)
    (leftMin? rightMin? : Option ℚ)
    (hcount : (colValid tbl col).length = 2) :
    (List.lookup col (intervalRegression tbl cs calcSecs leftMin? rightMin?) = none ∧
     List.lookup col (continuousRegression tbl cs cLeft cRight) = none ∧
     List.lookup col (movingRegression tbl cs intervalMin windowMin) = none) ∧
    (∀ t1 v1 t2 v2 mn mx, colValid tbl col = [(t1, v1), (t2, v2)] → t1 ≠ t2 →
      minTime tbl = some mn → maxTime tbl = some mx → mn < mx →
      0 < ibMin → ibMin / 60 < mx - mn + 1/1000 → col ∈ cs →
      ∃ r, List.lookup col (intervalBased tbl cs ibMin) = some r) := by
  have habs : ∀ (g : Option (List (Option ℚ))),
      g = getCol tbl col → True := fun _ _ => trivial
  constructor
  · refine ⟨?_, ?_, ?_⟩
    · unfold intervalRegression
      by_cases he : (tbl.times.isEmpty || cs.isEmpty) = true
      · rw [if_pos he]
        rfl
      · rw [if_neg he]
        cases minTime tbl with
        | none => rfl
        | some mn =>
          cases maxTime tbl with
          | none => rfl
          | some mx =>
            refine lookup_resMap_none _ cs col ?_
            unfold intervalRegressionCol
            cases hg : getCol tbl col with
            | none => rfl
            | some cells =>
              rw [if_pos (by rw [hcount]; omega)]
    · unfold continuousRegression
      cases minTime tbl with
      | none => rfl
      | some mn =>
        cases maxTime tbl with
        | none => rfl
        | some mx =>
          refine lookup_resMap_none _ cs col ?_
          unfold continuousRegressionCol
          cases hg : getCol tbl col with
          | none => rfl
          | some cells =>
            rw [if_pos (by rw [hcount]; omega)]
    · unfold movingRegression
      cases minTime tbl with
      | none => rfl
      | some mn =>
        cases maxTime tbl with
        | none => rfl
        | some mx =>
          show List.lookup col
            (if mx - windowMin / 60 / 2 ≤ mn + windowMin / 60 / 2 then []
             else cs.filterMap (fun c =>
               (movingRegressionCol tbl c intervalMin windowMin mn mx).map
                 (fun r => (c, r)))) = none
          by_cases hg2 : mx - windowMin / 60 / 2 ≤ mn + windowMin / 60 / 2
          · rw [if_pos hg2]
            rfl
          · rw [if_neg hg2]
            refine lookup_resMap_none _ cs col ?_
            unfold movingRegressionCol
            cases hg : getCol tbl col with
            | none => rfl
            | some cells =>
              rw [if_pos (by rw [hcount]; omega)]
  · intro t1 v1 t2 v2 mn mx hvp hne hmn hmx hspan him hfit hmem
    have hst : 0 < ibMin / 60 := by positivity
    obtain ⟨l, hgrid⟩ := npArange_cons₂ (s := mn) (e := mx + 1/1000) hst
      (by linarith)
    have hg : ∃ cells, getCol tbl col = some cells := by
      cases hgc : getCol tbl col with
      | none =>
        have : colValid tbl col = [] := by
          unfold colValid
          rw [hgc]
        rw [this] at hvp
        cases hvp
      | some cells => exact ⟨cells, rfl⟩
    obtain ⟨cells, hgc⟩ := hg
    have hsorted : ∃ a ya b yb, sortByTime (colValid tbl col) = [(a, ya), (b, yb)] ∧ a ≠ b := by
      rw [hvp, sortByTime_pair]
      by_cases hle : t1 ≤ t2
      · exact ⟨t1, v1, t2, v2, by rw [if_pos hle], hne⟩
      · exact ⟨t2, v2, t1, v1, by rw [if_neg hle], fun he => hne he.symm⟩
    obtain ⟨a, ya, b, yb, hsort, hab⟩ := hsorted
    have hcol : ∃ r, intervalBasedCol tbl col ibMin mn mx = some r := by
      unfold intervalBasedCol
      rw [hgc]
      rw [if_neg (by rw [hvp]; simp)]
      have hp2 : ¬ (min (mn + ibMin / 60) mx ≤ max mn mn) := by
        rw [max_self]
        push_neg
        exact lt_min (by linarith) hspan
      obtain ⟨w1, hw1⟩ := Option.isSome_iff_exists.mp
        (@interpSegs_pair_isSome a b ya yb (max mn mn) hab)
      obtain ⟨w2, hw2⟩ := Option.isSome_iff_exists.mp
        (@interpSegs_pair_isSome a b ya yb (min (mn + ibMin / 60) mx) hab)
      unfold ibAccepted
      simp only [hsort, hgrid, consecPairs_cons₂, List.filterMap_cons]
      rw [if_neg hp2, hw1, hw2]
      exact ⟨_, by rw [if_neg (by simp)]⟩
    obtain ⟨r, hr⟩ := hcol
    refine ⟨r, ?_⟩
    unfold intervalBased
    rw [hmn, hmx]
    exact lookup_resMap_mem _ cs col r hmem hr

/-- C5 (counterexample): the claim promises a 2-valid-sample column is always
present in the interval-based result, but when the observed span (0.01 h)
is smaller than the cadence (30 min), the evaluation grid holds a single
timestamp, the pair loop body never runs, `slopes` stays empty and the
column is omitted. -/
theorem interval_based_absent_short_span :
    (colValid tbl5 "c").length = 2 ∧
    List.lookup "c" (intervalBased tbl5 ["c"] 30) = none := by
  have hvp : colValid tbl5 "c" = [(0, 3), (1/100, 4)] := rfl
  have hg : getCol tbl5 "c" = some [some 3, some 4] := rfl
  have htv : timeVals tbl5 = [0, 1/100] := rfl
  have hmn : minTime tbl5 = some 0 := by
    unfold minTime
    rw [htv]
    show some (min 0 (1/100)) = some 0
    norm_num [min_def]
  have hmx : maxTime tbl5 = some (1/100) := by
    unfold maxTime
    rw [htv]
    show some (max 0 (1/100)) = some (1/100)
    norm_num [max_def]
  have hgr : npArange 0 (1/100 + 1/1000) (30/60) = [0] := by
    unfold npArange
    rw [if_pos (by norm_num)]
    rw [show (⌈((1:ℚ)/100 + 1/1000 - 0) / (30/60)⌉) = 1 by
      rw [Int.ceil_eq_iff]
      norm_num]
    norm_num [Int.toNat_one, List.range_succ]
  constructor
  · rw [hvp]
    rfl
  · unfold intervalBased
    rw [hmn, hmx]
    refine lookup_resMap_none _ _ _ ?_
    unfold intervalBasedCol
    rw [hg, if_neg (by rw [hvp]; simp), hgr]
    rfl

/-- Witness for C5's amended theorem on a two-sample table spanning 1 hour:
absent from all three regression methods, present in the interval-based
result. -/
theorem two_sample_column_method_presence_witness :
    List.lookup "c" (intervalRegression tbl2s ["c"] 30 none none) = none ∧
    List.lookup "c" (continuousRegression tbl2s ["c"] 15 15) = none ∧
    List.lookup "c" (movingRegression tbl2s ["c"] 30 60) = none ∧
    (List.lookup "c" (intervalBased tbl2s ["c"] 30)).isSome = true := by
  have hvp : colValid tbl2s "c" = [(0, 5), (1, 7)] := rfl
  have htv : timeVals tbl2s = [0, 1] := rfl
  have hmn : minTime tbl2s = some 0 := by
    unfold minTime
    rw [htv]
    show some (min 0 1) = some 0
    norm_num [min_def]
  have hmx : maxTime tbl2s = some 1 := by
    unfold maxTime
    rw [htv]
    show some (max 0 1) = some 1
    norm_num [max_def]
  have h := two_sample_column_method_presence tbl2s ["c"] "c" 30 30 60 15 15 30
    none none (by rw [hvp]; rfl)
  obtain ⟨r, hr⟩ := h.2 0 5 1 7 0 1 hvp (by norm_num) hmn hmx (by norm_num)
    (by norm_num) (by norm_num) (by simp)
  exact ⟨h.1.1, h.1.2.1, h.1.2.2, by rw [hr]; rfl⟩

theorem linSamples_length (t0 d : ℚ) (n : ℕ) (a b : ℚ) :
    (linSamples t0 d n a b).length = n := by
  unfold linSamples
  rw [List.length_map, List.length_range]

theorem linSamples_linear {t0 d a b : ℚ} {n : ℕ} :
    ∀ p ∈ linSamples t0 d n a b, p.2 = a * p.1 + b := by
  intro p hp
  obtain ⟨k, _, rfl⟩ := List.mem_map.mp hp
  rfl

theorem linSamples_pairwise {t0 d a b : ℚ} {n : ℕ} (hd : 0 < d) :
    (linSamples t0 d n a b).Pairwise (fun p q => p.1 < q.1) := by
  unfold linSamples
  refine List.Pairwise.map _ ?_ (List.sorted_lt_range n)
  intro i j hij
  show t0 + (i : ℚ) * d < t0 + (j : ℚ) * d
  have : (i : ℚ) < (j : ℚ) := by exact_mod_cast hij
  nlinarith

theorem linSamples_sorted {t0 d a b : ℚ} {n : ℕ} (hd : 0 < d) :
    (linSamples t0 d n a b).Sorted (fun p q : ℚ × ℚ => p.1 ≤ q.1) :=
  (linSamples_pairwise hd).imp (fun h => le_of_lt h)

/-- Linear interpolation is exact on collinear knots (including beyond the
ends, where `interp1d` extrapolates the end segments linearly). -/
theorem interpSegs_linear (a b : ℚ) :
    ∀ (pts : List (ℚ × ℚ)) (x : ℚ),
      (∀ p ∈ pts, p.2 = a * p.1 + b) →
      pts.Chain' (fun p q => p.1 < q.1) → 2 ≤ pts.length →
      interpSegs pts x = some (a * x + b) := by
  intro pts
  induction pts with
  | nil =>
    intro x _ _ hlen
    simp at hlen
  | cons p0 tail ih =>
    intro x hlin hchain hlen
    cases tail with
    | nil => simp at hlen
    | cons p1 rest =>
      obtain ⟨x0, y0⟩ := p0
      obtain ⟨x1, y1⟩ := p1
      have hx01 : x0 < x1 := (List.chain'_cons.mp hchain).1
      have hy0 : y0 = a * x0 + b := hlin (x0, y0) (List.mem_cons_self _ _)
      have hy1 : y1 = a * x1 + b :=
        hlin (x1, y1) (List.mem_cons_of_mem _ (List.mem_cons_self _ _))
      show interpSegs ((x0, y0) :: (x1, y1) :: rest) x = some (a * x + b)
      unfold interpSegs
      by_cases hbr : x ≤ x1 ∨ rest = []
      · rw [if_pos hbr, if_neg (by exact fun he => absurd he (ne_of_gt hx01))]
        congr 1
        rw [hy0, hy1]
        have hne : x1 - x0 ≠ 0 := sub_ne_zero_of_ne (ne_of_gt hx01)
        field_simp
        ring
      · rw [if_neg hbr]
        push_neg at hbr
        obtain ⟨hx, hrest⟩ := hbr
        cases rest with
        | nil => exact absurd rfl hrest
        | cons p2 rest' =>
          exact ih x
            (fun p hp => hlin p (List.mem_cons_of_mem _ hp))
            (List.Chain'.tail hchain)
            (by simp)

/-- On collinear evenly spaced valid samples, the two-point loop accepts
exactly the grid points strictly below `mx` (the rest have degenerate
clamped intervals) and computes the exact slope `a` at each, labeled at the
grid point itself. -/
theorem ibAccepted_linear {t0 d a b mn mx st : ℚ} {n : ℕ}
    (hd : 0 < d) (hn : 2 ≤ n) (hst : 0 < st) (e : ℚ) :
    ibAccepted (linSamples t0 d n a b) (npArange mn e st) mn mx =
      ((consecPairs (npArange mn e st)).filter
        (fun pr => decide (pr.1 < mx))).map (fun pr => (pr.1, a)) := by
  have key : ∀ pr : ℚ × ℚ, pr ∈ consecPairs (npArange mn e st) →
      (if min pr.2 mx ≤ max pr.1 mn then none
       else
         match interpSegs (linSamples t0 d n a b) (max pr.1 mn),
             interpSegs (linSamples t0 d n a b) (min pr.2 mx) with
         | some v1, some v2 =>
           some (pr.1, (v2 - v1) / (min pr.2 mx - max pr.1 mn))
         | _, _ => none) =
      if decide (pr.1 < mx) = true then some (pr.1, a) else none := by
    intro pr hpr
    obtain ⟨i, h1, h2, hpr_eq⟩ := mem_consecPairs hpr
    have hget1 := npArange_get (s := mn) (e := e) hst i h1
    have hget2 := npArange_get (s := mn) (e := e) hst (i + 1) h2
    have hpr1 : pr.1 = mn + (i : ℚ) * st := by
      rw [hpr_eq]
      exact hget1
    have hpr2 : pr.2 = mn + ((i : ℚ) + 1) * st := by
      rw [hpr_eq]
      show (npArange mn e st).get ⟨i + 1, h2⟩ = _
      rw [hget2]
      push_cast
      ring
    have hmnle : mn ≤ pr.1 := by
      rw [hpr1]
      have : (0:ℚ) ≤ (i : ℚ) * st := by positivity
      linarith
    have hlt12 : pr.1 < pr.2 := by
      rw [hpr1, hpr2]
      nlinarith
    have hmax : max pr.1 mn = pr.1 := max_eq_left hmnle
    have hchain : (linSamples t0 d n a b).Chain' (fun p q => p.1 < q.1) :=
      (linSamples_pairwise hd).chain'
    have hlen : 2 ≤ (linSamples t0 d n a b).length := by
      rw [linSamples_length]
      omega
    by_cases hlt : pr.1 < mx
    · have hp1lt : pr.1 < min pr.2 mx := lt_min hlt12 hlt
      have hp2 : ¬ (min pr.2 mx ≤ max pr.1 mn) := by
        rw [hmax]
        push_neg
        exact hp1lt
      rw [if_neg hp2, hmax]
      rw [interpSegs_linear a b (linSamples t0 d n a b) pr.1
        linSamples_linear hchain hlen]
      rw [interpSegs_linear a b (linSamples t0 d n a b) (min pr.2 mx)
        linSamples_linear hchain hlen]
      rw [if_pos (decide_eq_true hlt)]
      show some (pr.1, (a * min pr.2 mx + b - (a * pr.1 + b)) / (min pr.2 mx - pr.1)) =
        some (pr.1, a)
      have hne : min pr.2 mx - pr.1 ≠ 0 :=
        sub_ne_zero_of_ne (ne_of_gt hp1lt)
      have hnum : a * min pr.2 mx + b - (a * pr.1 + b) = a * (min pr.2 mx - pr.1) := by
        ring
      rw [hnum, mul_div_assoc, div_self hne, mul_one]
    · have hp2 : min pr.2 mx ≤ max pr.1 mn := by
        rw [hmax]
        push_neg at hlt
        exact le_trans (min_le_right _ _) hlt
      rw [if_pos hp2, if_neg (by simpa using hlt)]
  unfold ibAccepted
  exact filterMap_eq_filter_map (fun x hx => key x hx)

/-- C9 (confirmed): on exactly evenly-spaced samples of an exactly linear
series `value = a·time + b`, every slope the interval-based two-point method
emits equals the analytic derivative `a` exactly; its `times` array is
exactly the left edges `tᵢ` of the consecutive evaluation intervals
`(tᵢ, tᵢ₊₁)` that survive clamping (each slope is the forward difference
over `[tᵢ, min(tᵢ₊₁, max_time)]` labeled at `tᵢ`), and `times` and `slopes`
stay parallel. -/
theorem interval_based_exact_on_linear (tbl : Table) (c : String)
    (im mn mx t0 d a b : ℚ) (n : ℕ)
    (hvp : colValid tbl c = linSamples t0 d n a b)
    (hn : 2 ≤ n) (hd : 0 < d) (him : 0 < im) (r : SlopeRecord)
    (hr : intervalBasedCol tbl c im mn mx = some r) :
    (∀ s ∈ r.slopes, s = a) ∧
    r.times = ((consecPairs (npArange mn (mx + 1/1000) (im / 60))).filter
      (fun pr => decide (pr.1 < mx))).map (fun pr => pr.1) ∧
    r.slopes.length = r.times.length := by
  have hst : 0 < im / 60 := by positivity
  have hgc : ∃ cells, getCol tbl c = some cells := by
    cases hg : getCol tbl c with
    | none =>
      have h0 : colValid tbl c = [] := by
        unfold colValid
        rw [hg]
      rw [h0] at hvp
      have hlen := congrArg List.length hvp
      rw [linSamples_length] at hlen
      simp at hlen
      omega
    | some cells => exact ⟨cells, rfl⟩
  obtain ⟨cells, hg⟩ := hgc
  have hsort : sortByTime (colValid tbl c) = linSamples t0 d n a b := by
    rw [hvp]
    exact (linSamples_sorted hd).insertionSort_eq
  unfold intervalBasedCol at hr
  rw [hg] at hr
  replace hr : (if (colValid tbl c).length < 2 then (none : Option SlopeRecord)
      else
        if (ibAccepted (sortByTime (colValid tbl c))
            (npArange mn (mx + 1/1000) (im / 60)) mn mx).isEmpty then none
        else some (baseRecord
          ((ibAccepted (sortByTime (colValid tbl c))
            (npArange mn (mx + 1/1000) (im / 60)) mn mx).map (fun a => a.1))
          ((ibAccepted (sortByTime (colValid tbl c))
            (npArange mn (mx + 1/1000) (im / 60)) mn mx).map (fun a => a.2))
          none none c "interval_based")) = some r := hr
  rw [if_neg (by rw [hvp, linSamples_length]; omega)] at hr
  rw [hsort, ibAccepted_linear hd hn hst (mx + 1/1000)] at hr
  by_cases hemp : (((consecPairs (npArange mn (mx + 1/1000) (im / 60))).filter
      (fun pr => decide (pr.1 < mx))).map (fun pr => (pr.1, a))).isEmpty
  · rw [if_pos hemp] at hr
    cases hr
  · rw [if_neg hemp] at hr
    injection hr with hr'
    subst hr'
    refine ⟨?_, ?_, ?_⟩
    · intro s hs
      have hs' : s ∈ (((consecPairs (npArange mn (mx + 1/1000) (im / 60))).filter
          (fun pr => decide (pr.1 < mx))).map (fun pr => (pr.1, a))).map
            (fun a => a.2) := hs
      rw [List.map_map] at hs'
      obtain ⟨pr, _, hpr⟩ := List.mem_map.mp hs'
      exact hpr.symm
    · show (((consecPairs (npArange mn (mx + 1/1000) (im / 60))).filter
          (fun pr => decide (pr.1 < mx))).map (fun pr => (pr.1, a))).map
            (fun a => a.1) = _
      rw [List.map_map]
      rfl
    · simp [baseRecord, List.length_map]

/-- Witness for C9: on `tbl9` with a 30-minute cadence the two-point method
emits slopes `[3, 3, 3]` at left-edge labels `[0, 1/2, 1]`, matching the
analytic derivative exactly. -/
theorem interval_based_exact_on_linear_witness :
    colValid tbl9 "c" = linSamples 0 (1/2) 4 3 7 ∧
    intervalBasedCol tbl9 "c" 30 0 (3/2) =
      some (baseRecord [0, 1/2, 1] [3, 3, 3] none none "c" "interval_based") ∧
    ∀ s ∈ (baseRecord [0, 1/2, 1] [3, 3, 3] none none "c"
      "interval_based").slopes, s = 3 := by
  have hvp : colValid tbl9 "c" = linSamples 0 (1/2) 4 3 7 := by
    show [((0:ℚ), (7:ℚ)), (1/2, 17/2), (1, 10), (3/2, 23/2)] = _
    norm_num [linSamples, List.range_succ, Prod.ext_iff]
  have hsort9 : sortByTime (colValid tbl9 "c") = linSamples 0 (1/2) 4 3 7 := by
    rw [hvp]
    exact (linSamples_sorted (by norm_num)).insertionSort_eq
  have hgrid : npArange 0 (3/2 + 1/1000) (30/60) = [0, 1/2, 1, 3/2] := by
    unfold npArange
    rw [if_pos (by norm_num)]
    rw [show (⌈((3:ℚ)/2 + 1/1000 - 0) / (30/60)⌉) = 4 by
      rw [Int.ceil_eq_iff]
      norm_num]
    rw [show Int.toNat 4 = 4 from rfl]
    norm_num [List.range_succ]
  have hr : intervalBasedCol tbl9 "c" 30 0 (3/2) =
      some (baseRecord [0, 1/2, 1] [3, 3, 3] none none "c" "interval_based") := by
    unfold intervalBasedCol
    rw [show getCol tbl9 "c" = some [some 7, some (17/2), some 10, some (23/2)]
      from rfl]
    rw [if_neg (by rw [hvp, linSamples_length]; omega)]
    rw [hsort9,
      ibAccepted_linear (by norm_num) (by norm_num) (by norm_num) (3/2 + 1/1000),
      hgrid]
    norm_num [consecPairs, List.zip_cons_cons, List.tail_cons, List.filter_cons,
      List.filter_nil, List.map_cons, List.map_nil, baseRecord]
  refine ⟨hvp, hr, ?_⟩
  exact (interval_based_exact_on_linear tbl9 "c" 30 0 (3/2) 0 (1/2) 3 7 4 hvp
    (by norm_num) (by norm_num) (by norm_num) _ hr).1

/-- Labels of accepted evaluations are drawn from the evaluation grid. -/
theorem mem_map_fst_regAccepted {grid : List ℚ} {P : ℚ → Option (ℚ × ℚ × ℕ)}
    {t : ℚ}
    (h : t ∈ (regAccepted grid P).map (fun a => a.1)) : t ∈ grid := by
  unfold regAccepted at h
  obtain ⟨a, ha, rfl⟩ := List.mem_map.mp h
  obtain ⟨u, hu, hPu⟩ := List.mem_filterMap.mp ha
  cases hP : P u with
  | none =>
    rw [hP] at hPu
    cases hPu
  | some q =>
    rw [hP] at hPu
    simp only [Option.map_some'] at hPu
    cases hPu
    exact hu

/-- Every timestamp of an interval-regression record lies on its grid. -/
theorem intervalRegressionCol_times {tbl : Table} {c : String}
    {calcSecs lm rm mn mx : ℚ} {r : SlopeRecord}
    (h : intervalRegressionCol tbl c calcSecs lm rm mn mx = some r) :
    ∀ t ∈ r.times, t ∈ npArange mn (mx + 1/1000) (calcSecs / 3600) := by
  unfold intervalRegressionCol at h
  split at h
  · cases h
  · split at h
    · cases h
    · split at h
      · cases h
      · injection h with h'
        subst h'
        intro t ht
        exact mem_map_fst_regAccepted ht

/-- Every timestamp of a moving-regression record lies on its grid. -/
theorem movingRegressionCol_times {tbl : Table} {c : String}
    {intervalMin windowMin mn mx : ℚ} {r : SlopeRecord}
    (h : movingRegressionCol tbl c intervalMin windowMin mn mx = some r) :
    ∀ t ∈ r.times,
      t ∈ npArange (mn + windowMin / 60 / 2) (mx - windowMin / 60 / 2 + 1/1000)
        (intervalMin / 60) := by
  unfold movingRegressionCol at h
  split at h
  · cases h
  · split at h
    · cases h
    · split at h
      · cases h
      · injection h with h'
        subst h'
        intro t ht
        exact mem_map_fst_regAccepted ht

/-- Every timestamp of a continuous-regression record is a valid sample
timestamp of the column. -/
theorem continuousRegressionCol_times {tbl : Table} {c : String}
    {cLeft cRight : ℚ} {r : SlopeRecord}
    (h : continuousRegressionCol tbl c cLeft cRight = some r) :
    ∀ t ∈ r.times, ∃ p ∈ colValid tbl c, p.1 = t := by
  unfold continuousRegressionCol at h
  split at h
  · cases h
  · split at h
    · cases h
    · split at h
      · cases h
      · injection h with h'
        subst h'
        intro t ht
        have ht' := mem_map_fst_regAccepted ht
        obtain ⟨p, hp, hpt⟩ := List.mem_map.mp ht'
        exact ⟨p, hp, hpt⟩

/-- C6 (amended): for the interval-regression and moving-regression methods
every emitted timestamp lies within `[min_time, max_time + 0.001]` — the
evaluation grid `np.arange(…, max + 0.001, …)` may overshoot the observed
maximum by strictly less than the 0.001 h padding (see the counterexample),
and the moving grid additionally starts half a window after `min_time`; for
the continuous-regression method every emitted timestamp is a valid sample
timestamp and hence lies within `[min_time, max_time]` exactly. -/
theorem windowed_methods_time_bounds (tbl : Table) (cs : List String)
    (col : String) (calcSecs intervalMin windowMin cLeft cRight : ℚ)
    (leftMin? rightMin? : Option ℚ) (mn mx : ℚ)
    (hmn : minTime tbl = some mn) (hmx : maxTime tbl = some mx)
    (hsecs : 0 < calcSecs) (hwin : 0 ≤ windowMin) :
    (∀ r, List.lookup col
        (intervalRegression tbl cs calcSecs leftMin? rightMin?) = some r →
      ∀ t ∈ r.times, mn ≤ t ∧ t ≤ mx + 1/1000) ∧
    (∀ r, List.lookup col
        (movingRegression tbl cs intervalMin windowMin) = some r →
      ∀ t ∈ r.times, mn ≤ t ∧ t ≤ mx + 1/1000) ∧
    (∀ r, List.lookup col
        (continuousRegression tbl cs cLeft cRight) = some r →
      ∀ t ∈ r.times, mn ≤ t ∧ t ≤ mx) := by
  refine ⟨?_, ?_, ?_⟩
  · intro r hlook t ht
    unfold intervalRegression at hlook
    by_cases hb : (tbl.times.isEmpty || cs.isEmpty) = true
    · rw [if_pos hb] at hlook
      cases hlook
    · rw [if_neg hb, hmn, hmx] at hlook
      replace hlook : List.lookup col (cs.filterMap (fun c =>
          (intervalRegressionCol tbl c calcSecs (leftMin?.getD 15)
            (rightMin?.getD 15) mn mx).map (fun r => (c, r)))) = some r := hlook
      have hcol := lookup_resMap_some _ cs col r hlook
      have hmem := intervalRegressionCol_times hcol t ht
      have hbd := mem_npArange (by positivity) hmem
      exact ⟨hbd.1, le_of_lt hbd.2⟩
  · intro r hlook t ht
    unfold movingRegression at hlook
    rw [hmn, hmx] at hlook
    replace hlook : (if mx - windowMin / 60 / 2 ≤ mn + windowMin / 60 / 2
        then ([] : List (String × SlopeRecord))
        else cs.filterMap (fun c =>
          (movingRegressionCol tbl c intervalMin windowMin mn mx).map
            (fun r => (c, r)))).lookup col = some r := hlook
    by_cases hg2 : mx - windowMin / 60 / 2 ≤ mn + windowMin / 60 / 2
    · rw [if_pos hg2] at hlook
      cases hlook
    · rw [if_neg hg2] at hlook
      have hcol := lookup_resMap_some _ cs col r hlook
      have hmem := movingRegressionCol_times hcol t ht
      by_cases hstep : 0 < intervalMin / 60
      · have hbd := mem_npArange hstep hmem
        have hhalf : 0 ≤ windowMin / 60 / 2 := by positivity
        constructor
        · linarith [hbd.1]
        · linarith [hbd.2]
      · rw [show npArange (mn + windowMin / 60 / 2)
            (mx - windowMin / 60 / 2 + 1/1000) (intervalMin / 60) = [] by
          unfold npArange
          rw [if_neg hstep]] at hmem
        cases hmem
  · intro r hlook t ht
    unfold continuousRegression at hlook
    rw [hmn, hmx] at hlook
    replace hlook : List.lookup col (cs.filterMap (fun c =>
        (continuousRegressionCol tbl c cLeft cRight).map
          (fun r => (c, r)))) = some r := hlook
    have hcol := lookup_resMap_some _ cs col r hlook
    obtain ⟨p, hp, hpt⟩ := continuousRegressionCol_times hcol t ht
    have htv := colValid_time_mem hp
    rw [hpt] at htv
    exact ⟨minTime_le hmn t htv, le_maxTime hmx t htv⟩

/-- C6 (counterexample): with a 0.06-minute window and a 119.994-minute
cadence, the moving-regression evaluation grid
`np.arange(min + w/2, max − w/2 + 0.001, interval)` contains the timestamp
`2.0004 > max_time = 2`; the window around it still holds the three
clustered samples, the fit is accepted, and a slope is emitted at an
evaluation point outside the observed window — refuting the claim that
emitted `times` never exceed `max(relative_time)`. -/
theorem moving_regression_time_beyond_max :
    maxTime tblC6 = some 2 ∧
    ∃ r, List.lookup "c" (movingRegression tblC6 ["c"] (59997/500) (3/50)) =
        some r ∧
      ∃ t ∈ r.times, 2 < t := by
  have hvp : colValid tblC6 "c" =
      [(0, 7), (39999/20000, 39999/20000), (99999/50000, 99999/50000), (2, 2)] :=
    rfl
  have htv : timeVals tblC6 = [0, 39999/20000, 99999/50000, 2] := rfl
  have hmn : minTime tblC6 = some 0 := by
    unfold minTime
    rw [htv]
    show some (min (min (min 0 (39999/20000)) (99999/50000)) 2) = some 0
    norm_num [min_def]
  have hmx : maxTime tblC6 = some 2 := by
    unfold maxTime
    rw [htv]
    show some (max (max (max 0 (39999/20000)) (99999/50000)) 2) = some 2
    norm_num [max_def]
  have hgrid : npArange (0 + 3/50/60/2) (2 - 3/50/60/2 + 1/1000) (59997/500/60) =
      [1/2000, 5001/2500] := by
    unfold npArange
    rw [if_pos (by norm_num)]
    rw [show ⌈((2:ℚ) - 3/50/60/2 + 1/1000 - (0 + 3/50/60/2)) / (59997/500/60)⌉ = 2 by
      rw [Int.ceil_eq_iff]
      norm_num]
    rw [show Int.toNat 2 = 2 from rfl]
    norm_num [List.range_succ]
  have hP1 : movingAt (colValid tblC6 "c") (3/50/60/2) (1/2000) = none := by
    rw [hvp]
    unfold movingAt windowPts
    norm_num [List.filter_cons, List.filter_nil]
  have hP2 : movingAt (colValid tblC6 "c") (3/50/60/2) (5001/2500) =
      some (1, 1, 3) := by
    rw [hvp]
    unfold movingAt windowPts
    rw [show (List.filter (fun p => decide (5001/2500 - 3/50/60/2 ≤ p.1) &&
        decide (p.1 ≤ 5001/2500 + 3/50/60/2))
        [((0:ℚ), (7:ℚ)), (39999/20000, 39999/20000), (99999/50000, 99999/50000), (2, 2)]) =
        [(39999/20000, 39999/20000), (99999/50000, 99999/50000), (2, 2)] by
      norm_num [List.filter_cons, List.filter_nil]]
    rw [if_neg (by norm_num)]
    unfold linregress
    norm_num [List.map_cons, List.map_nil, Prod.ext_iff]
  have hcol : movingRegressionCol tblC6 "c" (59997/500) (3/50) 0 2 =
      some (regRecord [(5001/2500, (1, 1, 3))] "c" "moving_regression") := by
    unfold movingRegressionCol
    rw [show getCol tblC6 "c" =
      some [some 7, some (39999/20000), some (99999/50000), some 2] from rfl]
    rw [if_neg (by rw [hvp]; simp)]
    unfold regAccepted
    rw [hgrid]
    simp only [List.filterMap_cons, List.filterMap_nil, hP1, hP2,
      Option.map_some', Option.map_none']
    rw [if_neg (by simp)]
  refine ⟨hmx, regRecord [(5001/2500, (1, 1, 3))] "c" "moving_regression", ?_,
    5001/2500, by simp [regRecord, baseRecord], by norm_num⟩
  unfold movingRegression
  rw [hmn, hmx]
  show List.lookup "c"
      (if (2:ℚ) - 3/50/60/2 ≤ 0 + 3/50/60/2
       then ([] : List (String × SlopeRecord))
       else List.filterMap (fun c =>
         Option.map (fun r => (c, r))
           (movingRegressionCol tblC6 c (59997/500) (3/50) 0 2)) ["c"]) =
    some (regRecord [(5001/2500, (1, 1, 3))] "c" "moving_regression")
  rw [if_neg (by norm_num)]
  exact lookup_resMap_mem _ ["c"] "c" _ (by simp) hcol

/-- Witness for C6's amended theorem: `tblW`'s continuous-regression record
exists concretely and its first emitted timestamp `0` obeys the
`[min_time, max_time]` bound. -/
theorem windowed_methods_time_bounds_witness :
    List.lookup "c" (continuousRegression tblW ["c"] 300 300) = some recW ∧
    ((0:ℚ) ≤ 0 ∧ (0:ℚ) ≤ 4) := by
  have hvp : colValid tblW "c" =
      [(0, 10), (1, 11), (2, 12), (3, 13), (4, 14)] := rfl
  have htv : timeVals tblW = [0, 1, 2, 3, 4] := rfl
  have hgridW : (colValid tblW "c").map (fun p => p.1) = [0, 1, 2, 3, 4] := rfl
  have hmnW : minTime tblW = some 0 := by
    unfold minTime
    rw [htv]
    show some (min (min (min (min 0 1) 2) 3) 4) = some 0
    norm_num [min_def]
  have hmxW : maxTime tblW = some 4 := by
    unfold maxTime
    rw [htv]
    show some (max (max (max (max 0 1) 2) 3) 4) = some 4
    norm_num [max_def]
  have hlin : linregress [((0:ℚ), (10:ℚ)), (1, 11), (2, 12), (3, 13), (4, 14)] =
      some (1, 10, 1) := by
    unfold linregress
    norm_num [List.map_cons, List.map_nil, Prod.ext_iff]
  have hmr : minReqCont 5 = 5 := by
    unfold minReqCont
    rw [show ((5:ℕ) : ℚ) * (1 / 100) = 1/20 by push_cast; ring]
    rw [show ⌊(1:ℚ)/20⌋ = 0 by
      rw [Int.floor_eq_iff]
      norm_num]
    rfl
  have hC : ∀ t : ℚ, t ∈ ([0, 1, 2, 3, 4] : List ℚ) →
      contAt (colValid tblW "c") ((colValid tblW "c").length) (300/60) (300/60) t =
        some (1, 1, 5) := by
    intro t htm
    unfold contAt windowPts
    rw [hvp]
    rw [show ([((0:ℚ), (10:ℚ)), (1, 11), (2, 12), (3, 13), (4, 14)]).length = 5
      from rfl, hmr]
    have hflt : (List.filter (fun p => decide (t - 300/60 ≤ p.1) &&
        decide (p.1 ≤ t + 300/60))
        [((0:ℚ), (10:ℚ)), (1, 11), (2, 12), (3, 13), (4, 14)]) =
        [((0:ℚ), (10:ℚ)), (1, 11), (2, 12), (3, 13), (4, 14)] := by
      fin_cases htm <;> norm_num [List.filter_cons, List.filter_nil]
    rw [hflt, if_neg (by simp), hlin]
    show (if |(1:ℚ)| < 1000 then some ((1:ℚ), (1:ℚ), (5:ℕ)) else none) =
      some (1, 1, 5)
    rw [if_pos (by norm_num)]
  have hcolW : continuousRegressionCol tblW "c" 300 300 = some recW := by
    unfold continuousRegressionCol
    rw [show getCol tblW "c" =
      some [some 10, some 11, some 12, some 13, some 14] from rfl]
    rw [if_neg (by rw [hvp]; simp)]
    unfold regAccepted
    rw [hgridW]
    simp only [List.filterMap_cons, List.filterMap_nil]
    rw [hC 0 (by simp), hC 1 (by simp), hC 2 (by simp), hC 3 (by simp),
      hC 4 (by simp)]
    simp only [Option.map_some']
    rw [if_neg (by simp)]
    rfl
  have hlook : List.lookup "c" (continuousRegression tblW ["c"] 300 300) =
      some recW := by
    unfold continuousRegression
    rw [hmnW, hmxW]
    show List.lookup "c" (List.filterMap (fun c =>
      Option.map (fun r => (c, r)) (continuousRegressionCol tblW c 300 300))
        ["c"]) = some recW
    exact lookup_resMap_mem _ ["c"] "c" _ (by simp) hcolW
  exact ⟨hlook, (windowed_methods_time_bounds tblW ["c"] "c" 30 30 60 300 300
    none none 0 4 hmnW hmxW (by norm_num) (by norm_num)).2.2 recW hlook 0
    (by simp [recW, regRecord, baseRecord])⟩

end SlopeCalculator
